import Mathlib

/-
  Verification development for the calc_engine repository: a line-oriented
  expression language with variables, a dependency graph with cycle
  detection and topological scheduling, and unit-aware evaluation.

  Modelling conventions, used throughout:

  * Go float64 values are modelled by `GoFloat`: either an exact rational
    number or one of the IEEE 754 special values +Inf, -Inf, NaN.  Finite
    arithmetic is exact (every float64 is a rational, and all numeric
    identities claimed by the spec are exact ones that hold both in IEEE
    double arithmetic and in exact rational arithmetic); the special-value
    rules for +Inf, -Inf and NaN follow IEEE 754.  No negative zero.
  * Rational arithmetic is written with `mkRat`-based helper functions
    (radd, rmul, ...) so that every computation reduces inside the kernel.
  * Go strings are modelled by `String`; where the Go code scans a string
    byte by byte (the tokenizer), the string is first converted to its
    UTF-8 byte sequence (`strBytes`), exactly as Go indexes its strings.
  * Go maps are modelled by association lists.  The program never iterates
    over a map except in `LoadUnitAliases`; its result does not depend on
    the iteration order because no alias string occurs twice in UnitTable.
  * Go panics are modelled by `Except.error` values whose message starts
    with "panic:"; each such site is unreachable in the executions the
    claims are about.
-/

/-! ## Exact rational arithmetic, kernel-reducible -/

def radd (a b : Rat) : Rat := mkRat (a.num * b.den + b.num * a.den) (a.den * b.den)

def rmul (a b : Rat) : Rat := mkRat (a.num * b.num) (a.den * b.den)

def rneg (a : Rat) : Rat := mkRat (-a.num) a.den

def rsub (a b : Rat) : Rat := radd a (rneg b)

def rinv (a : Rat) : Rat :=
  if 0 < a.num then mkRat (a.den : Int) a.num.toNat
  else mkRat (-(a.den : Int)) (-a.num).toNat

def rdiv (a b : Rat) : Rat := rmul a (rinv b)

def rnpow (a : Rat) : Nat → Rat
  | 0 => 1
  | n + 1 => rmul a (rnpow a n)

def rzpow (a : Rat) (k : Int) : Rat :=
  if 0 ≤ k then rnpow a k.toNat else rinv (rnpow a (-k).toNat)

/-- Exact square root of a rational, when it is a perfect square (the only
case a claim evaluates, e.g. sqrt 16); 0 otherwise.  Models math.Sqrt on
exactly-representable squares. -/
def rsqrt (a : Rat) : Rat :=
  let n := ((List.range (a.num.toNat + 1)).find? (fun k => k * k == a.num.toNat)).getD 0
  let d := ((List.range (a.den + 1)).find? (fun k => k * k == a.den)).getD 0
  if (n * n : Int) == a.num && d * d == a.den && d != 0 then mkRat (n : Int) d else 0

/-- Models math.Pow exactly for integer exponents (the only exponents the
claims evaluate); a non-integer exponent of a rational base is in general
irrational and is mapped to 0 here, a path no claim exercises. -/
def rpowf (b e : Rat) : Rat :=
  if e.den = 1 then rzpow b e.num else 0

/-- Floor of a rational (Go math.Floor, exact on finite values). -/
def rfloor (a : Rat) : Rat := mkRat (Int.fdiv a.num (a.den : Int)) 1

/-- Ceiling of a rational (Go math.Ceil, exact on finite values). -/
def rceil (a : Rat) : Rat := mkRat (-(Int.fdiv (-a.num) (a.den : Int))) 1

/-- Go math.Round: round half away from zero, exact on finite values. -/
def rround (a : Rat) : Rat :=
  if 0 ≤ a.num then rfloor (radd a (mkRat 1 2))
  else rneg (rfloor (radd (rneg a) (mkRat 1 2)))

def rabs (a : Rat) : Rat := if a.num < 0 then rneg a else a

/-! ## GoFloat: the model of Go float64 values -/

/-- A Go float64: an exact rational (finite values carry no rounding in
this model; every claimed numeric identity is exact in IEEE double as
well) or one of the special values +Inf, -Inf, NaN.  Negative zero is not
distinguished from zero. -/
inductive GoFloat where
  | fin (q : Rat)
  | pinf
  | ninf
  | nan
deriving DecidableEq

def GoFloat.add : GoFloat → GoFloat → GoFloat
  | nan, _ => nan
  | _, nan => nan
  | fin a, fin b => fin (radd a b)
  | pinf, ninf => nan
  | ninf, pinf => nan
  | pinf, _ => pinf
  | _, pinf => pinf
  | ninf, _ => ninf
  | _, ninf => ninf

def GoFloat.sub : GoFloat → GoFloat → GoFloat
  | nan, _ => nan
  | _, nan => nan
  | fin a, fin b => fin (rsub a b)
  | pinf, pinf => nan
  | ninf, ninf => nan
  | pinf, _ => pinf
  | ninf, _ => ninf
  | _, pinf => ninf
  | _, ninf => pinf

def GoFloat.mul : GoFloat → GoFloat → GoFloat
  | nan, _ => nan
  | _, nan => nan
  | fin a, fin b => fin (rmul a b)
  | pinf, fin b => if b.num = 0 then nan else if 0 < b.num then pinf else ninf
  | fin a, pinf => if a.num = 0 then nan else if 0 < a.num then pinf else ninf
  | ninf, fin b => if b.num = 0 then nan else if 0 < b.num then ninf else pinf
  | fin a, ninf => if a.num = 0 then nan else if 0 < a.num then ninf else pinf
  | pinf, pinf => pinf
  | pinf, ninf => ninf
  | ninf, pinf => ninf
  | ninf, ninf => pinf

def GoFloat.div : GoFloat → GoFloat → GoFloat
  | nan, _ => nan
  | _, nan => nan
  | fin a, fin b =>
    if b.num = 0 then
      if a.num = 0 then nan else if 0 < a.num then pinf else ninf
    else fin (rdiv a b)
  | pinf, fin _ => pinf
  | ninf, fin _ => ninf
  | fin _, pinf => fin 0
  | fin _, ninf => fin 0
  | _, _ => nan

def GoFloat.sqrtF : GoFloat → GoFloat
  | fin a => if a.num < 0 then nan else fin (rsqrt a)
  | pinf => pinf
  | ninf => nan
  | nan => nan

def GoFloat.powF : GoFloat → GoFloat → GoFloat
  | fin a, fin b => fin (rpowf a b)
  | _, _ => nan

def GoFloat.absF : GoFloat → GoFloat
  | fin a => fin (rabs a)
  | pinf => pinf
  | ninf => pinf
  | nan => nan

def GoFloat.roundF : GoFloat → GoFloat
  | fin a => fin (rround a)
  | x => x

def GoFloat.ceilF : GoFloat → GoFloat
  | fin a => fin (rceil a)
  | x => x

def GoFloat.floorF : GoFloat → GoFloat
  | fin a => fin (rfloor a)
  | x => x

/-- Transcendental functions (math.Log10, math.Log, math.Sin, math.Cos,
math.Tan) are modelled abstractly as NaN: their numeric results are
irrational and no claim depends on them (only the unit bookkeeping around
the trigonometric calls is part of any claim). -/
def GoFloat.transcendental : GoFloat → GoFloat
  | _ => nan

/-! ## Byte sequences: Go strings as UTF-8 bytes -/

/-- UTF-8 encoding of one Unicode code point, as Go stores strings. -/
def utf8Bytes (c : Nat) : List Nat :=
  if c < 0x80 then [c]
  else if c < 0x800 then [0xC0 + c / 64, 0x80 + c % 64]
  else if c < 0x10000 then
    [0xE0 + c / 4096, 0x80 + (c / 64) % 64, 0x80 + c % 64]
  else
    [0xF0 + c / 0x40000, 0x80 + (c / 4096) % 64, 0x80 + (c / 64) % 64, 0x80 + c % 64]

/-- The UTF-8 byte sequence of a string: exactly the bytes Go's `s[i]`
indexing ranges over. -/
def strBytes (s : String) : List Nat :=
  (s.data.map (fun c => utf8Bytes c.toNat)).flatten

/-- Rebuild a string from bytes.  The tokenizer only assembles token text
from ASCII bytes in every execution the claims mention, where this is the
exact inverse of `strBytes`. -/
def bytesToStr (bs : List Nat) : String :=
  ⟨bs.map Char.ofNat⟩

/-- Go's `<` on strings compares byte-wise; on UTF-8 strings the byte-wise
lexicographic order coincides with the code-point-wise lexicographic
order, which is what this model computes. -/
def charsLt : List Char → List Char → Bool
  | [], [] => false
  | [], _ :: _ => true
  | _ :: _, [] => false
  | a :: as, b :: bs =>
    if a.toNat < b.toNat then true
    else if b.toNat < a.toNat then false
    else charsLt as bs

def strLt (a b : String) : Bool := charsLt a.data b.data

/-- Go's strings.Split on the one-byte separator "\n", on byte sequences.
A newline byte cannot occur inside a multi-byte UTF-8 character, so
splitting the byte sequence agrees with splitting the Go string. -/
def splitNL : List Nat → List (List Nat)
  | [] => [[]]
  | b :: rest =>
    if b = 10 then [] :: splitNL rest
    else
      match splitNL rest with
      | [] => [[b]]
      | l :: ls => (b :: l) :: ls

instance {e a : Type} [DecidableEq e] [DecidableEq a] : DecidableEq (Except e a) := fun x y =>
  match x, y with
  | .ok u, .ok v => decidable_of_iff (u = v) (by simp)
  | .ok _, .error _ => isFalse (by simp)
  | .error _, .ok _ => isFalse (by simp)
  | .error u, .error v => decidable_of_iff (u = v) (by simp)

/-! ## Tokens and the tokenizer -/

structure Token where
  Kind : String
  Value : String
deriving DecidableEq

/-- Splits a byte list into the maximal prefix satisfying `p` and the
rest; models the character-consuming loops of the Go tokenizer. -/
def spanBytes (p : Nat → Bool) : List Nat → List Nat × List Nat
  | [] => ([], [])
  | b :: bs =>
    if p b then
      let r := spanBytes p bs
      (b :: r.1, r.2)
    else ([], b :: bs)

theorem spanBytes_snd_length (p : Nat → Bool) (l : List Nat) :
    (spanBytes p l).2.length ≤ l.length := by
  induction l with
  | nil => simp [spanBytes]
  | cons b bs ih =>
    by_cases h : p b = true
    · simp [spanBytes, h]; omega
    · simp [spanBytes, h]

def digits : List Nat := strBytes "0123456789"

def numberChars : List Nat := strBytes "0123456789.,%"

def literalStartChars : List Nat :=
  strBytes "qwertyuiopasdfghjklzxcvbnmQWERTYUIOPASDFGHJKLZXCVBNM_"

def literalChars : List Nat :=
  strBytes "qwertyuiopasdfghjklzxcvbnmQWERTYUIOPASDFGHJKLZXCVBNM_0123456789"

def operators : List Nat := strBytes "+-*/^"

def containsByte (slice : List Nat) (val : Nat) : Bool := slice.contains val

/-- The Go tokenizer, one line of source as its UTF-8 bytes, scanned byte
by byte exactly as the Go loop does.  The fuel argument only bounds the
recursion so that the definition is structural (hence kernel-computable);
every step consumes at least one byte, so any fuel of at least the byte
count gives the Go behaviour, and `tokenizer` below supplies it.  A '\n'
byte makes the Go code panic (modelled as an error whose text starts with
"panic:"); the caller always splits on '\n' first, so that branch is
unreachable from ParseCode. -/
def tokenizerAux : Nat → List Nat → Bool → Except String (List Token)
  | _, [], _ => .ok []
  | 0, _ :: _, _ => .error "panic: tokenizer fuel exhausted"
  | fuel + 1, ch :: rest, allowUnknown =>
    if ch = 35 then
      -- '#': everything after the comment marker is ignored
      .ok [⟨"comment", bytesToStr (ch :: rest)⟩]
    else if ch = 32 ∨ ch = 9 then
      let s := spanBytes (fun b => b == 32 || b == 9) rest
      (tokenizerAux fuel s.2 allowUnknown).map
        (fun ts => ⟨"whitespace", bytesToStr (ch :: s.1)⟩ :: ts)
    else if ch = 40 then
      (tokenizerAux fuel rest allowUnknown).map (fun ts => ⟨"paren", "("⟩ :: ts)
    else if ch = 41 then
      (tokenizerAux fuel rest allowUnknown).map (fun ts => ⟨"paren", ")"⟩ :: ts)
    else if ch = 58 then
      (tokenizerAux fuel rest allowUnknown).map (fun ts => ⟨"definition", ":"⟩ :: ts)
    else if ch = 91 then
      (tokenizerAux fuel rest allowUnknown).map (fun ts => ⟨"bracket", "["⟩ :: ts)
    else if ch = 93 then
      (tokenizerAux fuel rest allowUnknown).map (fun ts => ⟨"bracket", "]"⟩ :: ts)
    else if containsByte operators ch then
      (tokenizerAux fuel rest allowUnknown).map
        (fun ts => ⟨"operator", bytesToStr [ch]⟩ :: ts)
    else if containsByte digits ch then
      let s := spanBytes (containsByte numberChars) rest
      (tokenizerAux fuel s.2 allowUnknown).map
        (fun ts => ⟨"number", bytesToStr (ch :: s.1)⟩ :: ts)
    else if containsByte literalStartChars ch then
      let s := spanBytes (containsByte literalChars) rest
      (tokenizerAux fuel s.2 allowUnknown).map
        (fun ts => ⟨"literal", bytesToStr (ch :: s.1)⟩ :: ts)
    else if ch = 10 then
      .error "panic: Tokenizer should parse single lines"
    else if allowUnknown then
      (tokenizerAux fuel rest allowUnknown).map
        (fun ts => ⟨"unknown", bytesToStr [ch]⟩ :: ts)
    else
      .error ("Unknown character " ++ bytesToStr [ch])

def tokenizer (source : List Nat) (allowUnknown : Bool) : Except String (List Token) :=
  tokenizerAux source.length source allowUnknown

def removeNonSemanticTokens (tokens : List Token) : List Token :=
  tokens.filter (fun t => t.Kind != "comment" && t.Kind != "whitespace")

/-! ## Fundamental units and the unit table -/

structure FundamentalUnit where
  ID : String
  DisplayValue : String
  Aliases : List String
  BaseUnit : String
  ConversionFactor : Rat
  ConversionShift : Rat
deriving DecidableEq

/-- Powers of ten as exact rationals (Go math.Pow10; the negative powers
are the nearest float64 in Go, a difference below every claimed identity,
which are exact on both readings). -/
def pow10 (k : Int) : Rat := rzpow (10 : Rat) k

/-- The exact value of the float64 math.Pi, divided by 180 (abstracting the
final float64 rounding; no claim evaluates degree conversions). -/
def piOver180 : Rat := mkRat 884279719003555 50665495807918080

set_option maxHeartbeats 2000000 in
/-- The unit catalog of unit.go, entry for entry. -/
def UnitTable : List (String × FundamentalUnit) := [
  ("meter", ⟨"meter", "m", ["m", "meter", "metre"], "meter", 1, 0⟩),
  ("decimeter", ⟨"decimeter", "dm", ["dm", "decimetre", "decimeter"], "meter", pow10 (-1), 0⟩),
  ("centimeter", ⟨"centimeter", "cm", ["cm", "centimetre", "centimeter"], "meter", pow10 (-2), 0⟩),
  ("millimeter", ⟨"millimeter", "mm", ["mm", "millimetre", "millimeter"], "meter", pow10 (-3), 0⟩),
  ("micrometer", ⟨"micrometer", "μm", ["μm", "micrometre", "micrometer"], "meter", pow10 (-6), 0⟩),
  ("nanometer", ⟨"nanometer", "nm", ["nm", "nanometre", "nanometer"], "meter", pow10 (-9), 0⟩),
  ("picometer", ⟨"picometer", "pm", ["pm", "picometre", "picometer"], "meter", pow10 (-12), 0⟩),
  ("femtometer", ⟨"femtometer", "fm", ["fm", "femtometre", "femtometer"], "meter", pow10 (-15), 0⟩),
  ("decameter", ⟨"decameter", "dam", ["dam", "decametre", "decameter"], "meter", pow10 1, 0⟩),
  ("hectometer", ⟨"hectometer", "hm", ["hm", "hectometre", "hectometer"], "meter", pow10 2, 0⟩),
  ("kilometer", ⟨"kilometer", "km", ["km", "kilometre", "kilometer"], "meter", pow10 3, 0⟩),
  ("megameter", ⟨"megameter", "Mm", ["Mm", "megametre", "megameter"], "meter", pow10 6, 0⟩),
  ("gigameter", ⟨"gigameter", "Gm", ["Gm", "gigametre", "gigameter"], "meter", pow10 9, 0⟩),
  ("inch", ⟨"inch", "in", ["in", "inch", "inches"], "meter", mkRat 254 10000, 0⟩),
  ("foot", ⟨"foot", "ft", ["ft", "foot", "feet"], "meter", mkRat 3048 10000, 0⟩),
  ("yard", ⟨"yard", "yd", ["yd", "yard", "yards"], "meter", mkRat 9144 10000, 0⟩),
  ("mile", ⟨"mile", "mi", ["mi", "mile", "miles"], "meter", mkRat 1609344 1000, 0⟩),
  ("nautical_mile", ⟨"nautical_mile", "nmi", ["nmi", "nautical_mile"], "meter", 1852, 0⟩),
  ("lunar_distance", ⟨"lunar_distance", "ld", ["ld", "lunar_distance", "lunar_distances"], "meter", 384402000, 0⟩),
  ("astronomical_unit", ⟨"astronomical_unit", "au", ["au", "astronomical_unit", "astronomical_units"], "meter", 149597870700, 0⟩),
  ("light_year", ⟨"light_year", "ly", ["ly", "light_year", "light_years"], "meter", 9460730472580800, 0⟩),
  ("kilogram", ⟨"kilogram", "kg", ["kg", "kilogram"], "kilogram", 1, 0⟩),
  ("hectogram", ⟨"hectogram", "hg", ["hg", "hectogram"], "kilogram", pow10 (-1), 0⟩),
  ("decagram", ⟨"decagram", "dag", ["dag", "decagram"], "kilogram", pow10 (-2), 0⟩),
  ("gram", ⟨"gram", "g", ["g", "gram"], "kilogram", pow10 (-3), 0⟩),
  ("decigram", ⟨"decigram", "dg", ["dg", "decigram"], "kilogram", pow10 (-4), 0⟩),
  ("centigram", ⟨"centigram", "cg", ["cg", "centigram"], "kilogram", pow10 (-5), 0⟩),
  ("milligram", ⟨"milligram", "mg", ["mg", "milligram"], "kilogram", pow10 (-6), 0⟩),
  ("microgram", ⟨"microgram", "µg", ["µg", "microgram"], "kilogram", pow10 (-6), 0⟩),
  ("tonne", ⟨"tonne", "ton", ["MG", "megagram", "tonne", "ton"], "kilogram", pow10 3, 0⟩),
  ("pound", ⟨"pound", "lbs", ["lbs", "pound", "pounds"], "kilogram", mkRat 45359237 100000000, 0⟩),
  ("ounce", ⟨"ounce", "oz", ["oz", "ounce", "ounces"], "kilogram", mkRat 28349523125 1000000000000, 0⟩),
  ("second", ⟨"second", "s", ["s", "second", "seconds"], "second", 1, 0⟩),
  ("millisecond", ⟨"millisecond", "ms", ["ms", "millisecond", "milliseconds"], "second", pow10 (-3), 0⟩),
  ("minute", ⟨"minute", "min", ["min", "minute", "minutes"], "second", 60, 0⟩),
  ("hour", ⟨"hour", "hours", ["hour", "hours"], "second", 3600, 0⟩),
  ("day", ⟨"day", "days", ["day", "day", "days"], "second", 86400, 0⟩),
  ("month", ⟨"month", "month", ["month", "months"], "second", 2592000, 0⟩),
  ("year", ⟨"year", "year", ["year", "years"], "second", 31556952, 0⟩),
  ("celsius", ⟨"celsius", "°C", ["C", "°C", "celsius"], "celsius", 1, 0⟩),
  ("fahrenheit", ⟨"fahrenheit", "°F", ["F", "°F", "fahrenheit"], "celsius", mkRat 5 9, -32⟩),
  ("kelvin", ⟨"kelvin", "K", ["K", "kelvin"], "celsius", 1, mkRat (-27315) 100⟩),
  ("ampere", ⟨"ampere", "A", ["A"], "ampere", 1, 0⟩),
  ("eur", ⟨"eur", "€", ["€", "eur", "EUR"], "eur", 1, 0⟩),
  ("usd", ⟨"usd", "$", ["$", "usd", "USD"], "eur", mkRat 84 100, 0⟩),
  ("gbp", ⟨"gbp", "£", ["£", "gbp", "GBP"], "eur", mkRat 117 100, 0⟩),
  ("cny", ⟨"cny", "¥", ["cny", "CNY"], "eur", mkRat 13 100, 0⟩),
  ("cad", ⟨"cad", "CAD", ["cad", "CAD"], "eur", mkRat 67 100, 0⟩),
  ("radians", ⟨"radians", "rad", ["rad", "radians"], "radians", 1, 0⟩),
  ("degrees", ⟨"degrees", "deg", ["deg", "degrees"], "radians", piOver180, 0⟩),
  ("pascal", ⟨"pascal", "Pa", ["Pa", "pascal"], "pascal", 1, 0⟩),
  ("bar", ⟨"bar", "bar", ["bar"], "bar", 100000, 0⟩),
  ("atmosphere", ⟨"atmosphere", "atm", ["atm", "atmosphere"], "pascal", 101325, 0⟩),
  ("millimeter_of_mercury", ⟨"millimeter_of_mercury", "mmHg", ["millimeter_of_mercury", "mmHg"], "pascal", mkRat 101325 760, 0⟩),
  ("bit", ⟨"bit", "bit", ["b", "bit"], "bit", 1, 0⟩),
  ("byte", ⟨"byte", "B", ["B", "byte"], "bit", 8, 0⟩),
  ("kilobit", ⟨"kilobit", "kbit", ["kbit", "kb", "kilobit"], "bit", pow10 3, 0⟩),
  ("kibibit", ⟨"kibibit", "Kibit", ["Kib", "Kibit", "kibibit"], "bit", 1024, 0⟩),
  ("kilobyte", ⟨"kilobyte", "kB", ["kB", "kilobyte"], "bit", rmul 8 (pow10 3), 0⟩),
  ("kibibyte", ⟨"kibibyte", "KiB", ["KiB", "kibibyte"], "bit", 8192, 0⟩),
  ("megabit", ⟨"megabit", "Mbit", ["Mbit", "megabit"], "bit", pow10 6, 0⟩),
  ("mebibit", ⟨"mebibit", "Mibit", ["Mibit", "mebibit"], "bit", 1048576, 0⟩),
  ("megabyte", ⟨"megabyte", "MB", ["MB", "megabyte"], "bit", rmul 8 (pow10 6), 0⟩),
  ("mebibyte", ⟨"mebibyte", "MiB", ["MiB", "mebibyte"], "bit", 8388608, 0⟩),
  ("gigabit", ⟨"gigabit", "Gbit", ["Gbit", "gigabit"], "bit", pow10 9, 0⟩),
  ("gibibit", ⟨"gibibit", "Gibit", ["Gibit", "gibibit"], "bit", 1073741824, 0⟩),
  ("gigabyte", ⟨"gigabyte", "GB", ["GB", "gigabyte"], "bit", rmul 8 (pow10 9), 0⟩),
  ("gibibyte", ⟨"gibibyte", "GiB", ["GiB", "gibibyte"], "bit", 8589934592, 0⟩),
  ("terabit", ⟨"terabit", "Tbit", ["Tbit", "terabit"], "bit", pow10 12, 0⟩),
  ("tebibit", ⟨"tebibit", "Tibit", ["Tibit", "tibibit"], "bit", 1099511627776, 0⟩),
  ("terabyte", ⟨"terabyte", "TB", ["TB", "terabyte"], "bit", rmul 8 (pow10 12), 0⟩),
  ("tebibyte", ⟨"tebibyte", "TiB", ["TiB", "tibibyte"], "bit", 8796093022208, 0⟩),
  ("petabit", ⟨"petabit", "Pbit", ["Pbit", "petabit"], "bit", pow10 15, 0⟩),
  ("pebibit", ⟨"pebibit", "Pibit", ["Pibit", "pebibit"], "bit", 1125899906842624, 0⟩),
  ("petabyte", ⟨"petabyte", "PB", ["PB", "petabyte"], "bit", rmul 8 (pow10 15), 0⟩),
  ("pebibyte", ⟨"pebibyte", "PiB", ["PiB", "pebibyte"], "bit", 9007199254740992, 0⟩)]

/-- Go map read `UnitTable[id]`: the entry, or the zero value on a miss
(no claim reaches the miss). -/
def unitTableGet (id : String) : FundamentalUnit :=
  ((List.lookup id UnitTable).getD ⟨"", "", [], "", 0, 0⟩)

/-- The alias → id map built by LoadUnitAliases.  The Go code fills a map
while ranging over the UnitTable map in unspecified order; no alias string
occurs under two ids, so the resulting map does not depend on that order
and equals this fold over the catalog in listed order. -/
def UnitAliasesMap : List (String × String) :=
  (List.map (fun p => p.2.Aliases.map (fun a => (a, p.2.ID))) UnitTable).flatten

def aliasLookup (s : String) : Option String :=
  (List.lookup s UnitAliasesMap)

def FundamentalUnit.toString (u : FundamentalUnit) : String := u.DisplayValue

def AreUnitsCompatible (u v : FundamentalUnit) : Bool := u.BaseUnit == v.BaseUnit

/-- ConvertFundamentalUnits of unit.go.  The Go function panics on
incompatible units (modelled as NaN; every caller checks compatibility
first) and short-circuits conversion from a unit to itself. -/
def ConvertFundamentalUnits (value : GoFloat) (fromU toU : FundamentalUnit) (exp : Rat) : GoFloat :=
  if AreUnitsCompatible fromU toU = false then GoFloat.nan
  else if fromU.ID == toU.ID then value
  else
    let v1 := GoFloat.mul (GoFloat.add value (GoFloat.fin fromU.ConversionShift))
      (GoFloat.fin (rpowf fromU.ConversionFactor exp))
    GoFloat.sub (GoFloat.div v1 (GoFloat.fin (rpowf toU.ConversionFactor exp)))
      (GoFloat.fin toU.ConversionShift)

structure UnitExponent where
  Unit : FundamentalUnit
  Exponent : Rat
deriving DecidableEq

structure CompositeUnit where
  UnitsList : List UnitExponent
deriving DecidableEq

def CompositeUnit.IsEmpty (cu : CompositeUnit) : Bool := cu.UnitsList.isEmpty

/-- The comparator of CompositeUnit.Sort: positive exponents first, then
alphabetical (byte-wise) by display symbol. -/
def cuLess (a b : UnitExponent) : Bool :=
  if Rat.blt 0 a.Exponent && Rat.blt b.Exponent 0 then true
  else if Rat.blt a.Exponent 0 && Rat.blt 0 b.Exponent then false
  else strLt a.Unit.DisplayValue b.Unit.DisplayValue

/-- CompositeUnit.Sort of unit.go.  Go's sort.Slice guarantees only that
the output is ordered with respect to the comparator; this model uses a
stable insertion sort, which satisfies that guarantee. -/
def CompositeUnit.sort (cu : CompositeUnit) : CompositeUnit :=
  ⟨List.insertionSort (fun a b => cuLess b a = false) cu.UnitsList⟩

/-- The comparator of CompositeUnit.SortByBaseUnitName. -/
def baseLess (a b : UnitExponent) : Bool := strLt a.Unit.BaseUnit b.Unit.BaseUnit

def CompositeUnit.sortByBaseUnitName (cu : CompositeUnit) : CompositeUnit :=
  ⟨List.insertionSort (fun a b => baseLess b a = false) cu.UnitsList⟩

def CompositeUnit.IsCompatible (cu other : CompositeUnit) : Bool :=
  let a := cu.sort
  let b := other.sort
  a.UnitsList.length == b.UnitsList.length &&
    (List.zip a.UnitsList b.UnitsList).all
      (fun p => p.1.Exponent == p.2.Exponent && AreUnitsCompatible p.1.Unit p.2.Unit)

/-- Digits of a natural number; the first argument is structural fuel (any
value above the number of digits gives the decimal representation). -/
def natDigitsAux : Nat → Nat → List Char
  | 0, _ => []
  | fuel + 1, n =>
    if n = 0 then []
    else natDigitsAux fuel (n / 10) ++ [Char.ofNat (48 + n % 10)]

def natToStr (n : Nat) : String :=
  if n = 0 then "0" else ⟨natDigitsAux (n + 1) n⟩

/-- Rendering of an exponent magnitude.  Models Go's
strconv.FormatFloat(exp, 'f', -1, 32) exactly on the integral values every
claim exercises; a fractional magnitude p/q is written "p/q" here (the Go
rendering would be a decimal, a difference no claim depends on). -/
def formatExp (q : Rat) : String :=
  if q.den = 1 then natToStr q.num.toNat
  else natToStr q.num.toNat ++ "/" ++ natToStr q.den

/-- One step of the string-building loop in CompositeUnit.String.  The
state is the string built so far together with the `positive` flag, which
the Go code initializes to true and never updates. -/
def cuStringStep (st : String × Bool) (factor : UnitExponent) : String × Bool :=
  let s0 := st.1
  let s1 :=
    if st.2 && Rat.blt factor.Exponent 0 then
      (if s0 == "" then "1" else s0) ++ " /"
    else s0
  let s2 := if s1 != "" then s1 ++ " " else s1
  let e := if Rat.blt factor.Exponent 0 then rneg factor.Exponent else factor.Exponent
  let s3 :=
    if e != 1 then s2 ++ factor.Unit.toString ++ "^" ++ formatExp e
    else s2 ++ factor.Unit.toString
  (s3, st.2)

/-- CompositeUnit.String of unit.go. -/
def CompositeUnit.render (cu : CompositeUnit) : String :=
  (cu.sort.UnitsList.foldl cuStringStep ("", true)).1

/-- ConvertCompositeUnits of unit.go.  The source comments that composite
units containing temperatures are broken; the per-axis sequential
conversion is replicated as written. -/
def ConvertCompositeUnits (value : GoFloat) (fromCU toCU : CompositeUnit) :
    Except String GoFloat :=
  if fromCU.IsCompatible toCU = false then .error "Units are not compatible"
  else
    let a := fromCU.sort
    let b := toCU.sort
    .ok ((List.zip a.UnitsList b.UnitsList).foldl
      (fun v p => ConvertFundamentalUnits v p.1.Unit p.2.Unit p.1.Exponent) value)

def CompositeUnitExponentiation (cu : CompositeUnit) (exp : Rat) : CompositeUnit :=
  ⟨cu.UnitsList.map (fun ue => ⟨ue.Unit, rmul ue.Exponent exp⟩)⟩

/-- The merge loop of CompositeUnitProduct, on the two base-sorted entry
lists, threading the numeric value through the conversions of the second
operand into the first operand's scale.  The fuel argument only makes the
recursion structural; `CompositeUnitProduct` supplies the sum of lengths,
which is exactly the number of iterations of the Go loop. -/
def mergeUnitsAux : Nat → List UnitExponent → List UnitExponent → GoFloat →
    GoFloat × List UnitExponent
  | _, [], [], v => (v, [])
  | 0, _, _, v => (v, [])
  | fuel + 1, [], b :: bs, v =>
    let r := mergeUnitsAux fuel [] bs v
    (r.1, b :: r.2)
  | fuel + 1, a :: as, [], v =>
    let r := mergeUnitsAux fuel as [] v
    (r.1, a :: r.2)
  | fuel + 1, a :: as, b :: bs, v =>
    if AreUnitsCompatible a.Unit b.Unit then
      let merged : UnitExponent := ⟨a.Unit, radd a.Exponent b.Exponent⟩
      let v2 := ConvertFundamentalUnits v b.Unit a.Unit b.Exponent
      let r := mergeUnitsAux fuel as bs v2
      if merged.Exponent == 0 then (r.1, r.2)
      else (r.1, merged :: r.2)
    else if strLt a.Unit.BaseUnit b.Unit.BaseUnit then
      let r := mergeUnitsAux fuel as (b :: bs) v
      (r.1, a :: r.2)
    else
      let r := mergeUnitsAux fuel (a :: as) bs v
      (r.1, b :: r.2)

def mergeUnits (a b : List UnitExponent) (v : GoFloat) : GoFloat × List UnitExponent :=
  mergeUnitsAux (a.length + b.length) a b v

/-- CompositeUnitProduct of unit.go.  The Go loop appends to the product
while mutating `value`; the appends and the value conversions are
interleaved in the same left-to-right order here. -/
def CompositeUnitProduct (valueA valueB : GoFloat) (a b : CompositeUnit) :
    GoFloat × CompositeUnit :=
  let a' := a.sortByBaseUnitName
  let b' := b.sortByBaseUnitName
  let r := mergeUnits a'.UnitsList b'.UnitsList (GoFloat.mul valueA valueB)
  (r.1, CompositeUnit.sort ⟨r.2⟩)

def CompositeUnitDivision (valueA valueB : GoFloat) (a b : CompositeUnit) :
    GoFloat × CompositeUnit :=
  CompositeUnitProduct valueA (GoFloat.div (GoFloat.fin 1) valueB) a
    (CompositeUnitExponentiation b (-1))

/-! ## The Ast type and the parser -/

inductive Ast where
  | mk (Kind : String) (Value : String) (Params : List Ast) (Unit : CompositeUnit)

def Ast.Kind : Ast → String
  | .mk k _ _ _ => k

def Ast.Value : Ast → String
  | .mk _ v _ _ => v

def Ast.Params : Ast → List Ast
  | .mk _ _ ps _ => ps

def Ast.Unit : Ast → CompositeUnit
  | .mk _ _ _ u => u

def Ast.addParam : Ast → Ast → Ast
  | .mk k v ps u, p => .mk k v (ps ++ [p]) u

def Ast.withUnit : Ast → CompositeUnit → Ast
  | .mk k v ps _, u => .mk k v ps u

/-- The zero value of the Go Ast struct. -/
def astZero : Ast := .mk "" "" [] ⟨[]⟩

/-- strconv.ParseFloat on the texts the program can feed it: strings over
digits, '.', ',', '%' (number-token text, possibly munged by the
NumberLiteral evaluator).  Go accepts an optional fraction after a single
dot and rejects everything else in this alphabet; exponent notation,
signs, inf and nan spellings cannot occur in a number token.  The
accumulator arguments carry the digits seen so far and the length of the
fraction. -/
def parseFloatChars : List Char → Bool → Bool → Nat → Nat → Option Rat
  | [], seenDigit, _, acc, fracLen =>
    if seenDigit then some (mkRat (acc : Int) (10 ^ fracLen)) else none
  | c :: cs, seenDigit, seenDot, acc, fracLen =>
    if 48 ≤ c.toNat && c.toNat ≤ 57 then
      parseFloatChars cs true seenDot (acc * 10 + (c.toNat - 48))
        (if seenDot then fracLen + 1 else fracLen)
    else if c.toNat == 46 && seenDot == false then
      parseFloatChars cs seenDigit true acc fracLen
    else none

def parseFloat? (s : String) : Option Rat :=
  parseFloatChars s.data false false 0 0

def unitExponentZero : UnitExponent := ⟨⟨"", "", [], "", 0, 0⟩, 0⟩

/-- The token-walking loop of parseUnitAst, over the params of a
UnitExpression node; `sign` is the Go local exponentSign and `acc` the
units list built so far. -/
def parseUnitAstLoop : List Ast → Rat → List UnitExponent →
    Except String (List UnitExponent)
  | [], _, acc => .ok acc
  | t :: rest, sign, acc =>
    if t.Kind == "FundamentalUnit" then
      parseUnitAstLoop rest sign (acc ++ [⟨unitTableGet t.Value, sign⟩])
    else if t.Kind == "CustomUnit" then
      parseUnitAstLoop rest sign
        (acc ++ [⟨⟨t.Value, t.Value, [t.Value], t.Value, 1, 0⟩, sign⟩])
    else if t.Kind == "UnitDivision" && sign == 1 then
      parseUnitAstLoop rest (-1) acc
    else if t.Kind == "UnitExponent" && !acc.isEmpty then
      match rest with
      | next :: rest2 =>
        if next.Kind == "UnitNumberLiteral" then
          match parseFloat? next.Value with
          | some exp =>
            parseUnitAstLoop rest2 sign
              (acc.dropLast ++ [⟨(acc.getLastD unitExponentZero).Unit, rmul exp sign⟩])
          | none => .error "invalid syntax"
        else .error "Failed to parse unit expression"
      | [] => .error "Failed to parse unit expression"
    else if t.Kind == "UnitNumberLiteral" && acc.isEmpty then
      parseUnitAstLoop rest sign acc
    else .error "Failed to parse unit expression"

def parseUnitAst (ast : Ast) : Except String CompositeUnit :=
  (parseUnitAstLoop ast.Params 1 []).map (fun l => ⟨l⟩)

/-- The walkUnit closure of the parser: reads exactly one token of a
bracketed unit expression. -/
def walkUnit : List Token → Except String (Ast × List Token)
  | [] => .error "Line ends unexpectedly"
  | token :: rest =>
    if token.Kind == "number" then
      .ok (.mk "UnitNumberLiteral" token.Value [] ⟨[]⟩, rest)
    else if token.Kind == "literal" then
      match aliasLookup token.Value with
      | some val => .ok (.mk "FundamentalUnit" val [] ⟨[]⟩, rest)
      | none => .ok (.mk "CustomUnit" token.Value [] ⟨[]⟩, rest)
    else if token.Kind == "operator" && token.Value == "^" then
      .ok (.mk "UnitExponent" token.Value [] ⟨[]⟩, rest)
    else if token.Kind == "operator" && token.Value == "/" then
      .ok (.mk "UnitDivision" token.Value [] ⟨[]⟩, rest)
    else .error "Unrecognized unit syntax"

def functions : List String :=
  ["sqrt", "log", "ln", "sin", "cos", "tan", "abs", "ln", "round", "ceil", "floor"]

def constants : List String := ["pi", "e"]

/-- The three recursion sites of the parser's walk closure: reading one
expression, the parenthesis loop, the bracket loop, and the top-level
loop of `parser`.  A single inductive tag keeps the whole recursion in one
function, structural in its fuel, so that it computes in the kernel. -/
inductive WalkMode where
  | one
  | paren (acc : Ast)
  | bracket (acc : Ast)
  | top (acc : Ast)

/-- The recursive walk of the parser.  The fuel only bounds the recursion
depth to make it structural: every recursive call either consumes a token
first or switches from a loop to reading one expression, so any fuel above
twice the token count is enough; `parser` supplies it. -/
def walkAux (vars : List (String × Nat)) :
    Nat → WalkMode → List Token → Except String (Ast × List Token)
  | 0, _, _ => .error "panic: parser fuel exhausted"
  | _ + 1, .one, [] => .error "Line ends unexpectedly"
  | fuel + 1, .one, token :: rest =>
    if token.Kind == "number" then
      .ok (.mk "NumberLiteral" token.Value [] ⟨[]⟩, rest)
    else if token.Kind == "paren" && token.Value == "(" then
      match rest with
      | [] => .error "Line ends unexpectedly"
      | _ => walkAux vars fuel (.paren (.mk "Expression" "" [] ⟨[]⟩)) rest
    else if token.Kind == "bracket" && token.Value == "[" then
      match rest with
      | [] => .error "Line ends unexpectedly"
      | _ =>
        match walkAux vars fuel (.bracket (.mk "UnitExpression" "" [] ⟨[]⟩)) rest with
        | .error e => .error e
        | .ok (ast, rest') =>
          match parseUnitAst ast with
          | .error e => .error e
          | .ok unit => .ok (ast.withUnit unit, rest')
    else if token.Kind == "literal" then
      if constants.contains token.Value then
        .ok (.mk "Constant" token.Value [] ⟨[]⟩, rest)
      else if (List.lookup token.Value vars).isSome then
        .ok (.mk "Variable" token.Value [] ⟨[]⟩, rest)
      else if functions.contains token.Value then
        match rest with
        | [] => .error "Line ends unexpectedly"
        | _ =>
          match walkAux vars fuel .one rest with
          | .error e => .error e
          | .ok (content, rest') =>
            .ok (.mk "Function" token.Value [content] ⟨[]⟩, rest')
      else if token.Kind == "operator" then
        .ok (.mk "RawOperator" token.Value [] ⟨[]⟩, rest)
      else .error "Unrecognized syntax"
    else if token.Kind == "operator" then
      .ok (.mk "RawOperator" token.Value [] ⟨[]⟩, rest)
    else .error "Unrecognized syntax"
  | _ + 1, .paren _, [] => .error "Line ends unexpectedly"
  | fuel + 1, .paren acc, token :: rest =>
    if token.Kind == "paren" && token.Value == ")" then .ok (acc, rest)
    else
      match walkAux vars fuel .one (token :: rest) with
      | .error e => .error e
      | .ok (content, rest') =>
        let acc' := if content.Kind != "UnitExpression" then acc.addParam content
          else acc.withUnit content.Unit
        match rest' with
        | [] => .error "Line ends unexpectedly"
        | _ => walkAux vars fuel (.paren acc') rest'
  | _ + 1, .bracket _, [] => .error "Line ends unexpectedly"
  | fuel + 1, .bracket acc, token :: rest =>
    if token.Kind == "bracket" && token.Value == "]" then .ok (acc, rest)
    else
      match walkUnit (token :: rest) with
      | .error e => .error e
      | .ok (content, rest') =>
        match rest' with
        | [] => .error "Line ends unexpectedly"
        | _ => walkAux vars fuel (.bracket (acc.addParam content)) rest'
  | _ + 1, .top acc, [] => .ok (acc, [])
  | fuel + 1, .top acc, token :: rest =>
    match walkAux vars fuel .one (token :: rest) with
    | .error e => .error e
    | .ok (content, rest') =>
      let acc' := if content.Kind != "UnitExpression" then acc.addParam content
        else acc.withUnit content.Unit
      walkAux vars fuel (.top acc') rest'

/-- Task tag joining the two recursion sites of parseOperator — the node
transformation and the scan over an Expression node's params (which
carries the Go loop's parsedParams accumulator) — into one structural
recursion. -/
inductive PTask where
  | node (a : Ast)
  | loop (params : List Ast) (parsed : List Ast)

/-- parseOperator of the parser: one precedence-folding pass for one
operator.  The fuel only makes the recursion structural; every call
descends into a strict subterm or advances the scanned list, so any fuel
above twice the node count of the tree is enough, and `parser` supplies
it.  Results tagged `.inl` come from node tasks, `.inr` from loop tasks. -/
def parseOpAux (operator : String) : Nat → PTask → Except String (Ast ⊕ List Ast)
  | 0, _ => .error "panic: parseOperator fuel exhausted"
  | fuel + 1, .node ast =>
    if ast.Kind == "NumberLiteral" || ast.Kind == "Constant" || ast.Kind == "Variable" then
      .ok (.inl ast)
    else if ast.Kind == "Function" then
      match ast.Params with
      | [] => .error "Function called without argument"
      | p0 :: _ =>
        if p0.Kind == "RawOperator" then
          .error "Cannot pass operation as argument to function"
        else
          match parseOpAux operator fuel (.node p0) with
          | .error e => .error e
          | .ok (.inl content) => .ok (.inl (.mk ast.Kind ast.Value [content] ast.Unit))
          | .ok (.inr _) => .error "panic: unreachable"
    else if ast.Kind == "Operator" then
      match ast.Params with
      | [p0, p1] =>
        match parseOpAux operator fuel (.node p0), parseOpAux operator fuel (.node p1) with
        | .error e1, _ => .error e1
        | _, .error e2 => .error e2
        | .ok (.inl f), .ok (.inl s) => .ok (.inl (.mk ast.Kind ast.Value [f, s] ast.Unit))
        | _, _ => .error "panic: unreachable"
      | _ => .error "panic: index out of range"
    else if ast.Kind == "Expression" then
      match parseOpAux operator fuel (.loop ast.Params []) with
      | .error e => .error e
      | .ok (.inr newParams) => .ok (.inl (.mk ast.Kind ast.Value newParams ast.Unit))
      | .ok (.inl _) => .error "panic: unreachable"
    else .error "panic: Unrecognized AST"
  | _ + 1, .loop [] parsed => .ok (.inr parsed)
  | fuel + 1, .loop (token :: rest) parsed =>
    if token.Kind != "RawOperator" then
      match parseOpAux operator fuel (.node token) with
      | .error e => .error e
      | .ok (.inl p) => parseOpAux operator fuel (.loop rest (parsed ++ [p]))
      | .ok (.inr _) => .error "panic: unreachable"
    else if token.Value != operator then
      parseOpAux operator fuel (.loop rest (parsed ++ [token]))
    else
      match rest with
      | [] => .error "Cannot end expression with operation"
      | next :: rest2 =>
        if parsed.isEmpty && operator != "-" then
          .error "Cannot start expression with operation"
        else if next.Kind == "RawOperator" then
          .error "Cannot have 2 operations consecutively"
        else
          match parseOpAux operator fuel (.node next) with
          | .error e => .error e
          | .ok (.inl second) =>
            let firstToken := if parsed.isEmpty then Ast.mk "NumberLiteral" "0" [] ⟨[]⟩
              else parsed.getLastD astZero
            let parsed' := if parsed.isEmpty then parsed else parsed.dropLast
            parseOpAux operator fuel
              (.loop rest2 (parsed' ++ [.mk "Operator" token.Value [firstToken, second] ⟨[]⟩]))
          | .ok (.inr _) => .error "panic: unreachable"

def parseOperator (operator : String) (fuel : Nat) (ast : Ast) : Except String Ast :=
  match parseOpAux operator fuel (.node ast) with
  | .ok (.inl a) => .ok a
  | .ok (.inr _) => .error "panic: unreachable"
  | .error e => .error e

def parserPasses (fuel : Nat) : List String → Ast → Except String Ast
  | [], a => .ok a
  | op :: rest, a =>
    match parseOperator op fuel a with
    | .error e => .error e
    | .ok a2 => parserPasses fuel rest a2

/-- The per-line parser: builds the flat tree with the walk closure, then
applies the five precedence-folding passes in the fixed source order. -/
def parser (tokens : List Token) (vars : List (String × Nat)) : Except String Ast :=
  match walkAux vars (4 * tokens.length + 8) (.top (.mk "Expression" "" [] ⟨[]⟩)) tokens with
  | .error e => .error e
  | .ok (ast0, _) => parserPasses (8 * tokens.length + 16) ["^", "*", "/", "-", "+"] ast0

/-! ## Lines, the execution graph, and the pipeline -/

structure Line where
  Name : String
  Tokens : List Token
  RawTokens : List Token
  Dependencies : List Nat
  Value : GoFloat
  Ast : Ast
  Unit : CompositeUnit
  Error : Option String

/-- The zero value of the Go Line struct. -/
def lineZero : Line := ⟨"", [], [], [], .fin 0, astZero, ⟨[]⟩, none⟩

def Line.IsEmpty (l : Line) : Bool := l.Tokens.isEmpty

def Line.HasError (l : Line) : Bool := l.Error.isSome

structure ExecutionGraph where
  Lines : List Line
  Variables : List (String × Nat)
  ExecutionOrder : List Nat
  SourceCode : String

/-- ExecutionGraph.Tokenize: split the source on newlines and tokenize
each line, recording tokenizer failures on the line. -/
def Tokenize (sourceCode : String) (allowUnknown : Bool) : List Line :=
  (splitNL (strBytes sourceCode)).map (fun lb =>
    match tokenizer lb allowUnknown with
    | .error e => ⟨"", [], [], [], .fin 0, astZero, ⟨[]⟩, some e⟩
    | .ok tokens =>
      ⟨"", removeNonSemanticTokens tokens, tokens, [], .fin 0, astZero, ⟨[]⟩, none⟩)

/-- Go map assignment m[k] = v: overwrite the binding if present,
otherwise add it. -/
def mapSet (m : List (String × Nat)) (k : String) (v : Nat) : List (String × Nat) :=
  if (List.lookup k m).isSome then m.map (fun p => if p.1 == k then (k, v) else p)
  else m ++ [(k, v)]

/-- parseVariableDeclarations: a line whose semantic tokens start with
`literal ":"` declares that literal as a variable bound to the line index;
the two tokens are stripped.  Later declarations overwrite earlier ones. -/
def parseVariableDeclarationsAux : List Line → Nat → List (String × Nat) →
    List Line × List (String × Nat)
  | [], _, vars => ([], vars)
  | l :: rest, i, vars =>
    match l.Tokens with
    | t0 :: t1 :: restTok =>
      if t0.Kind == "literal" && t1.Kind == "definition" then
        let vars2 := mapSet vars t0.Value i
        let l2 : Line := ⟨t0.Value, restTok, l.RawTokens, l.Dependencies, l.Value,
          l.Ast, l.Unit, l.Error⟩
        let r := parseVariableDeclarationsAux rest (i + 1) vars2
        (l2 :: r.1, r.2)
      else
        let r := parseVariableDeclarationsAux rest (i + 1) vars
        (l :: r.1, r.2)
    | _ =>
      let r := parseVariableDeclarationsAux rest (i + 1) vars
      (l :: r.1, r.2)

/-- parseLineDependencies: every literal token naming a declared variable
adds an edge to the declaring line; duplicates are kept. -/
def lineDeps (vars : List (String × Nat)) (tokens : List Token) : List Nat :=
  tokens.filterMap (fun t => if t.Kind == "literal" then List.lookup t.Value vars else none)

def parseLineDependencies (lines : List Line) (vars : List (String × Nat)) : List Line :=
  lines.map (fun l => ⟨l.Name, l.Tokens, l.RawTokens, lineDeps vars l.Tokens, l.Value,
    l.Ast, l.Unit, l.Error⟩)

def depsOfLine (deps : List (List Nat)) (u : Nat) : List Nat := deps.getD u []

/-! ## Cycle detection (two-timestamp DFS) -/

/-- The discovery-time and finish-time arrays and the step counter of
hasCyclicalDependencies. -/
structure DetSt where
  dt : List Nat
  ft : List Nat
  step : Nat

def dtAt (st : DetSt) (u : Nat) : Nat := st.dt.getD u 0

def ftAt (st : DetSt) (u : Nat) : Nat := st.ft.getD u 0

/-- Task tag joining recHasCycles and its dependency loop into one
structural recursion: `.visit n` is a call recHasCycles(n), `.scan l` the
loop over the remaining dependencies of the node being visited. -/
inductive DetTask where
  | visit (node : Nat)
  | scan (l : List Nat)

/-- recHasCycles: stamp the node's discovery time, scan its dependencies
(recursing into undiscovered ones, reporting a cycle on an edge to a
discovered-but-unfinished one), stamp its finish time.  The fuel only
makes the recursion structural; `hasCyclicalDependencies` supplies a bound
above the deepest possible call stack, and an exhausted fuel reports true,
a branch no run with well-formed dependencies reaches. -/
def detAux (deps : List (List Nat)) : Nat → DetTask → DetSt → Bool × DetSt
  | 0, _, st => (true, st)
  | fuel + 1, .visit node, st =>
    let st1 : DetSt := ⟨st.dt.set node st.step, st.ft, st.step + 1⟩
    match detAux deps fuel (.scan (depsOfLine deps node)) st1 with
    | (true, st2) => (true, st2)
    | (false, st2) => (false, ⟨st2.dt, st2.ft.set node st2.step, st2.step + 1⟩)
  | _ + 1, .scan [], st => (false, st)
  | fuel + 1, .scan (v :: rest), st =>
    if dtAt st v == 0 then
      match detAux deps fuel (.visit v) st with
      | (true, st2) => (true, st2)
      | (false, st2) => detAux deps fuel (.scan rest) st2
    else if ftAt st v == 0 then (true, st)
    else detAux deps fuel (.scan rest) st

def detFuel (deps : List (List Nat)) : Nat :=
  (deps.map List.length).sum + deps.length + 1

def hasCycOuter (deps : List (List Nat)) : List Nat → DetSt → Bool
  | [], _ => false
  | i :: rest, st =>
    if dtAt st i == 0 then
      match detAux deps (detFuel deps) (.visit i) st with
      | (true, _) => true
      | (false, st2) => hasCycOuter deps rest st2
    else hasCycOuter deps rest st

def hasCyclicalDependencies (deps : List (List Nat)) : Bool :=
  hasCycOuter deps (List.range deps.length)
    ⟨List.replicate deps.length 0, List.replicate deps.length 0, 1⟩

/-! ## Execution order (post-order DFS) -/

structure TopoSt where
  order : List Nat
  visited : List Bool

inductive TopoTask where
  | visit (node : Nat)
  | scan (l : List Nat)

/-- recTopologicalOrder: append a node after all its dependencies, in
post-order.  The fuel only makes the recursion structural;
`findExecutionOrder` supplies a bound above the deepest possible call
stack of an acyclic run (a cyclic run would not terminate in Go and is
rejected before this pass). -/
def topoAux (deps : List (List Nat)) : Nat → TopoTask → TopoSt → TopoSt
  | 0, _, st => st
  | fuel + 1, .visit node, st =>
    let st1 := topoAux deps fuel (.scan (depsOfLine deps node)) st
    ⟨st1.order ++ [node], st1.visited.set node true⟩
  | _ + 1, .scan [], st => st
  | fuel + 1, .scan (v :: rest), st =>
    if st.visited.getD v false then topoAux deps fuel (.scan rest) st
    else topoAux deps fuel (.scan rest) (topoAux deps fuel (.visit v) st)

def topoOuter (deps : List (List Nat)) : List Nat → TopoSt → TopoSt
  | [], st => st
  | i :: rest, st =>
    if st.visited.getD i false then topoOuter deps rest st
    else topoOuter deps rest (topoAux deps (detFuel deps) (.visit i) st)

def findExecutionOrder (deps : List (List Nat)) : List Nat :=
  (topoOuter deps (List.range deps.length) ⟨[], List.replicate deps.length false⟩).order

/-! ## The evaluator -/

/-- The exact dyadic value of the float64 constant math.Pi. -/
def piF : Rat := mkRat 884279719003555 281474976710656

/-- The exact dyadic value of the float64 constant math.E. -/
def eF : Rat := mkRat 6121026514868073 2251799813685248

/-- The exponent by which `^` scales the base unit.  In the source the
exponent is the float64 operand itself; this seam extracts its rational
value (an infinite or NaN exponent — unreachable in any claim — is read
as 0). -/
def gofToRat : GoFloat → Rat
  | .fin q => q
  | _ => 0

def emptyCU : CompositeUnit := ⟨[]⟩

/-- executeAst: recursive evaluation of a line's Ast against the current
lines and the variables map, returning value and unit or a line error.
The fuel only makes the recursion structural (it descends into strict
subterms); Execute supplies a bound above the tree depth. -/
def executeAst : Nat → Ast → List Line → List (String × Nat) →
    Except String (GoFloat × CompositeUnit)
  | 0, _, _, _ => .error "panic: executeAst fuel exhausted"
  | fuel + 1, ast, lines, vars =>
    if ast.Kind == "NumberLiteral" then
      let r1 := ast.Value.data.filter (fun c => c != '.')
      let r2 := r1.map (fun c => if c == ',' then '.' else c)
      match r2.getLast? with
      | none => .error "panic: index out of range"
      | some last =>
        let isPercentage := last == '%'
        let r3 := if isPercentage then r2.dropLast else r2
        match parseFloatChars r3 false false 0 0 with
        | none => .error "Invalid number literal"
        | some v => .ok (.fin (if isPercentage then rdiv v 100 else v), emptyCU)
    else if ast.Kind == "Variable" then
      let line := (List.lookup ast.Value vars).getD 0
      let l := lines.getD line lineZero
      if l.IsEmpty then .error "Referring to a variable defined by empty expression"
      else if l.HasError then .error "Referring to a variable whose definition has an error"
      else .ok (l.Value, l.Unit)
    else if ast.Kind == "Expression" then
      match ast.Params with
      | [] => .error "panic: Cannot evaluate empty expression"
      | p0 :: _ =>
        match executeAst fuel p0 lines vars with
        | .error e => .error e
        | .ok (val, unit) =>
          if ast.Unit.IsEmpty then .ok (val, unit)
          else if unit.IsEmpty then .ok (val, ast.Unit)
          else
            match ConvertCompositeUnits val unit ast.Unit with
            | .error e => .error e
            | .ok v2 => .ok (v2, ast.Unit)
    else if ast.Kind == "Operator" then
      match ast.Params with
      | [p0, p1] =>
        match executeAst fuel p0 lines vars, executeAst fuel p1 lines vars with
        | .error e, _ => .error e
        | _, .error e => .error e
        | .ok (v1, u1), .ok (v2, u2) =>
          if ast.Value == "+" then
            match ConvertCompositeUnits v2 u2 u1 with
            | .error e => .error e
            | .ok v2c => .ok (GoFloat.add v1 v2c, u1)
          else if ast.Value == "-" then
            match ConvertCompositeUnits v2 u2 u1 with
            | .error e => .error e
            | .ok v2c => .ok (GoFloat.sub v1 v2c, emptyCU)
          else if ast.Value == "*" then
            let r := CompositeUnitProduct v1 v2 u1 u2
            .ok (r.1, r.2)
          else if ast.Value == "/" then
            let r := CompositeUnitDivision v1 v2 u1 u2
            .ok (r.1, r.2)
          else if ast.Value == "^" then
            if !u2.IsEmpty then .error "Exponent must be a number with no unit"
            else .ok (GoFloat.powF v1 v2, CompositeUnitExponentiation u1 (gofToRat v2))
          else .error "panic: Unknown operation"
      | _ => .error "panic: index out of range"
    else if ast.Kind == "Function" then
      match ast.Params with
      | [] => .error "panic: index out of range"
      | p0 :: _ =>
        match executeAst fuel p0 lines vars with
        | .error e => .error e
        | .ok (value, unit) =>
          if ast.Value == "sqrt" then
            .ok (value.sqrtF, CompositeUnitExponentiation unit (mkRat 1 2))
          else if ast.Value == "log" then .ok (value.transcendental, unit)
          else if ast.Value == "ln" then .ok (value.transcendental, unit)
          else if ast.Value == "sin" || ast.Value == "cos" || ast.Value == "tan" then
            if unit.render == "rad" then .ok (value.transcendental, emptyCU)
            else if unit.render == "deg" then
              .ok ((ConvertFundamentalUnits value (unitTableGet "degrees")
                (unitTableGet "radians") 1).transcendental, emptyCU)
            else .ok (value.transcendental, unit)
          else if ast.Value == "abs" then .ok (value.absF, unit)
          else if ast.Value == "round" then .ok (value.roundF, unit)
          else if ast.Value == "ceil" then .ok (value.ceilF, unit)
          else if ast.Value == "floor" then .ok (value.floorF, unit)
          else .error "panic: Unknown function"
    else if ast.Kind == "Constant" then
      if ast.Value == "pi" then .ok (.fin piF, emptyCU)
      else if ast.Value == "e" then .ok (.fin eF, emptyCU)
      else .error "panic: Unknown constant"
    else .error "panic: Unrecognized AST"

/-! ## ParseCode and Execute -/

/-- ParseCode: tokenize, resolve declarations, build the dependency graph,
reject cyclic documents (the Go code panics — modelled as `none`), compute
the execution order, and parse each line.  `some` carries the graph the Go
function returns. -/
def ParseCode (sourceCode : String) : Option ExecutionGraph :=
  let lines0 := Tokenize sourceCode false
  let d := parseVariableDeclarationsAux lines0 0 []
  let lines2 := parseLineDependencies d.1 d.2
  let deps := lines2.map Line.Dependencies
  if hasCyclicalDependencies deps then none
  else
    let order := findExecutionOrder deps
    let lines3 := lines2.map (fun l =>
      match parser l.Tokens d.2 with
      | .error e => ⟨l.Name, l.Tokens, l.RawTokens, l.Dependencies, l.Value, l.Ast,
        l.Unit, some e⟩
      | .ok ast => ⟨l.Name, l.Tokens, l.RawTokens, l.Dependencies, l.Value, ast,
        l.Unit, l.Error⟩)
    some ⟨lines3, d.2, order, sourceCode⟩

/-- The per-line evaluation fuel Execute hands to executeAst: far above
the depth of any tree the parser builds from the line's tokens. -/
def lineFuel (l : Line) : Nat := 8 * l.Tokens.length + 16

/-- The body of Execute: walk the execution order, evaluating each line
that is neither empty nor already errored, writing its value and unit (or
its error) back into the lines. -/
def ExecuteSteps : List Nat → List Line → List (String × Nat) → List Line
  | [], lines, _ => lines
  | i :: rest, lines, vars =>
    let l := lines.getD i lineZero
    let lines2 :=
      if !l.IsEmpty && !l.HasError then
        match executeAst (lineFuel l) l.Ast lines vars with
        | .error e =>
          lines.set i ⟨l.Name, l.Tokens, l.RawTokens, l.Dependencies, l.Value, l.Ast,
            l.Unit, some e⟩
        | .ok (v, u) =>
          lines.set i ⟨l.Name, l.Tokens, l.RawTokens, l.Dependencies, v, l.Ast, u,
            l.Error⟩
      else lines
    ExecuteSteps rest lines2 vars

def Execute (g : ExecutionGraph) : ExecutionGraph :=
  ⟨ExecuteSteps g.ExecutionOrder g.Lines g.Variables, g.Variables, g.ExecutionOrder,
    g.SourceCode⟩

/-- The indices, in invocation order, at which ExecuteSteps invokes
executeAst: the lines Execute actually evaluates. -/
def ExecuteTraceAux : List Nat → List Line → List (String × Nat) → List Nat
  | [], _, _ => []
  | i :: rest, lines, vars =>
    let l := lines.getD i lineZero
    if !l.IsEmpty && !l.HasError then
      let lines2 :=
        match executeAst (lineFuel l) l.Ast lines vars with
        | .error e =>
          lines.set i ⟨l.Name, l.Tokens, l.RawTokens, l.Dependencies, l.Value, l.Ast,
            l.Unit, some e⟩
        | .ok (v, u) =>
          lines.set i ⟨l.Name, l.Tokens, l.RawTokens, l.Dependencies, v, l.Ast, u,
            l.Error⟩
      i :: ExecuteTraceAux rest lines2 vars
    else ExecuteTraceAux rest lines vars

def ExecuteTrace (g : ExecutionGraph) : List Nat :=
  ExecuteTraceAux g.ExecutionOrder g.Lines g.Variables

/-! ## Helper definitions used by the claim statements -/

/-- Tokenize one line strictly and parse it, exactly as ParseCode does for
a line of the document (with the given variables map). -/
def parseLineStr (s : String) (vars : List (String × Nat)) : Except String Ast :=
  match tokenizer (strBytes s) false with
  | .error e => .error e
  | .ok ts => parser (removeNonSemanticTokens ts) vars

/-- The value a NumberLiteral's text denotes, written from the spec's
wording: remove every thousands-separator '.', turn every decimal-comma
',' into '.', strip a trailing '%' (dividing by 100 when present), parse
as a number; `none` when the remaining text fails numeric parsing. -/
def specNumberValue (s : String) : Option Rat :=
  let r2 := (s.data.filter (fun c => c != '.')).map (fun c => if c == ',' then '.' else c)
  match r2.getLast? with
  | none => none
  | some last =>
    if last == '%' then (parseFloatChars r2.dropLast false false 0 0).map (fun v => rdiv v 100)
    else parseFloatChars r2 false false 0 0

/-! ## C6: fundamental unit conversions -/

/-- C6: ConvertFundamentalUnits maps, with exponent 1, 5 °C to exactly
41 °F, 5 km to exactly 5000000 mm and 1 month to exactly 720 hours, and
with exponent 2 it maps 1 m² to exactly 10000 cm², by the catalog's linear
factors and affine shifts. -/
theorem claim_C6_conversions :
    ConvertFundamentalUnits (GoFloat.fin 5) (unitTableGet "celsius")
      (unitTableGet "fahrenheit") 1 = GoFloat.fin 41
    ∧ ConvertFundamentalUnits (GoFloat.fin 5) (unitTableGet "kilometer")
      (unitTableGet "millimeter") 1 = GoFloat.fin 5000000
    ∧ ConvertFundamentalUnits (GoFloat.fin 1) (unitTableGet "month")
      (unitTableGet "hour") 1 = GoFloat.fin 720
    ∧ ConvertFundamentalUnits (GoFloat.fin 1) (unitTableGet "meter")
      (unitTableGet "centimeter") 2 = GoFloat.fin 10000 := by
  refine ⟨by decide, by decide, by decide, by decide⟩

/-! ## C7: NumberLiteral evaluation -/

/-- C7: evaluating a NumberLiteral strips thousands-separator dots, turns
the decimal comma into a dot, divides by 100 on a trailing '%', and
parses; "1.000.000" gives 1000000, "5,2" gives 5.2, "56%" gives 0.56, and
text that still fails numeric parsing gives a line error.  The last two
conjuncts state the general round-trip against the spec-worded
`specNumberValue` for every literal text. -/
theorem claim_C7_number_literals :
    executeAst 1 (.mk "NumberLiteral" "1.000.000" [] emptyCU) [] []
      = .ok (.fin 1000000, emptyCU)
    ∧ executeAst 1 (.mk "NumberLiteral" "5,2" [] emptyCU) [] []
      = .ok (.fin (mkRat 52 10), emptyCU)
    ∧ executeAst 1 (.mk "NumberLiteral" "56%" [] emptyCU) [] []
      = .ok (.fin (mkRat 56 100), emptyCU)
    ∧ executeAst 1 (.mk "NumberLiteral" "5,2,3" [] emptyCU) [] []
      = .error "Invalid number literal"
    ∧ (∀ (s : String) (fuel : Nat) (lines : List Line) (vars : List (String × Nat)) (v : Rat),
        specNumberValue s = some v →
          executeAst (fuel + 1) (.mk "NumberLiteral" s [] emptyCU) lines vars
            = .ok (.fin v, emptyCU))
    ∧ (∀ (s : String) (fuel : Nat) (lines : List Line) (vars : List (String × Nat)),
        specNumberValue s = none →
          ∃ e, executeAst (fuel + 1) (.mk "NumberLiteral" s [] emptyCU) lines vars
            = .error e) := by
  refine ⟨by decide, by decide, by decide, by decide, ?_, ?_⟩
  · intro s fuel lines vars v h
    simp only [specNumberValue] at h
    simp only [executeAst, Ast.Kind, Ast.Value]
    simp only [show (("NumberLiteral" : String) == "NumberLiteral") = true from rfl, if_true]
    cases hlast : ((s.data.filter (fun c => c != '.')).map
        (fun c => if c == ',' then '.' else c)).getLast? with
    | none => rw [hlast] at h; simp at h
    | some last =>
      rw [hlast] at h
      dsimp only at h ⊢
      by_cases hp : (last == '%') = true
      · rw [if_pos hp] at h ⊢
        cases hparse : parseFloatChars ((s.data.filter (fun c => c != '.')).map
            (fun c => if c == ',' then '.' else c)).dropLast false false 0 0 with
        | none => rw [hparse] at h; exact absurd h (by simp)
        | some w =>
          rw [hparse] at h
          have hv : v = rdiv w 100 := by simpa using h.symm
          subst hv
          simp [hp]
      · rw [if_neg hp] at h ⊢
        cases hparse : parseFloatChars ((s.data.filter (fun c => c != '.')).map
            (fun c => if c == ',' then '.' else c)) false false 0 0 with
        | none => rw [hparse] at h; simp at h
        | some w =>
          rw [hparse] at h
          cases h
          simp [hp]
  · intro s fuel lines vars h
    simp only [specNumberValue] at h
    simp only [executeAst, Ast.Kind, Ast.Value]
    simp only [show (("NumberLiteral" : String) == "NumberLiteral") = true from rfl, if_true]
    cases hlast : ((s.data.filter (fun c => c != '.')).map
        (fun c => if c == ',' then '.' else c)).getLast? with
    | none => exact ⟨_, rfl⟩
    | some last =>
      rw [hlast] at h
      dsimp only at h ⊢
      by_cases hp : (last == '%') = true
      · rw [if_pos hp] at h ⊢
        cases hparse : parseFloatChars ((s.data.filter (fun c => c != '.')).map
            (fun c => if c == ',' then '.' else c)).dropLast false false 0 0 with
        | none => exact ⟨_, rfl⟩
        | some w => rw [hparse] at h; simp at h
      · rw [if_neg hp] at h ⊢
        cases hparse : parseFloatChars ((s.data.filter (fun c => c != '.')).map
            (fun c => if c == ',' then '.' else c)) false false 0 0 with
        | none => exact ⟨_, rfl⟩
        | some w => rw [hparse] at h; simp at h

/-! ## C8: end-to-end evaluation -/

/-- C8: on the document "55 + y\ny: sqrt(11+5)+3" the pipeline schedules
line 2 (index 1) before line 1 (index 0), evaluates line 2 to 7 and line
1 to 62, with no line error. -/
theorem claim_C8_end_to_end :
    (ParseCode "55 + y\ny: sqrt(11+5)+3").map ExecutionGraph.ExecutionOrder = some [1, 0]
    ∧ ((ParseCode "55 + y\ny: sqrt(11+5)+3").map
        (fun g => (Execute g).Lines.map Line.Value)) = some [.fin 62, .fin 7]
    ∧ ((ParseCode "55 + y\ny: sqrt(11+5)+3").map
        (fun g => (Execute g).Lines.map (fun l => l.Error.isNone))) = some [true, true] := by
  refine ⟨by decide, by decide, by decide⟩

/-! ## C5: parse errors for malformed operator use -/

/-- One line of source, tokenized in strict mode with non-semantic tokens
removed and parsed, exactly as ParseCode treats each line. -/
def tokenizeParseLine (s : String) (vars : List (String × Nat)) : Except String Ast :=
  match tokenizer (strBytes s) false with
  | .error e => .error e
  | .ok ts => parser (removeNonSemanticTokens ts) vars

/-- C5: the parser rejects a trailing operator ("5 +"), two consecutive
operators ("5 + + 3") and a leading '+' ("+ 5"), accepts a leading '-'
("-5 + 3"), and on the document "5 +\n1 + 2" the error is attached to
line 1 only while line 2 is still parsed and evaluated to 3. -/
theorem claim_C5_parse_errors :
    (tokenizeParseLine "5 +" []).isOk = false
    ∧ (tokenizeParseLine "5 + + 3" []).isOk = false
    ∧ (tokenizeParseLine "+ 5" []).isOk = false
    ∧ (tokenizeParseLine "-5 + 3" []).isOk = true
    ∧ (ParseCode "5 +\n1 + 2").map (fun g => g.Lines.map (fun l => l.Error.isSome))
        = some [true, false]
    ∧ (ParseCode "5 +\n1 + 2").map
        (fun g => (Execute g).Lines.map (fun l => (l.Error.isSome, l.Value)))
        = some [(true, .fin 0), (false, .fin 3)] := by
  refine ⟨by decide, by decide, by decide, by decide, by decide, by decide⟩

/-! ## C10: division never errors, IEEE quotient semantics -/

/-- C10: a '/' Operator node whose operands evaluate without error never
itself returns an error: no divisor-of-zero check exists, the result is
exactly the CompositeUnitDivision merge of the operand values and units,
and for a zero divisor (unitless case shown) the value is the IEEE
quotient: NaN for 0/0 and a signed infinity otherwise. -/
theorem claim_C10_division_no_error (fuel : Nat) (a1 a2 : Ast) (lines : List Line)
    (vars : List (String × Nat)) (v1 v2 : GoFloat) (u1 u2 : CompositeUnit)
    (h1 : executeAst fuel a1 lines vars = .ok (v1, u1))
    (h2 : executeAst fuel a2 lines vars = .ok (v2, u2)) :
    executeAst (fuel + 1) (.mk "Operator" "/" [a1, a2] emptyCU) lines vars
      = .ok (CompositeUnitDivision v1 v2 u1 u2)
    ∧ (∀ q1, v1 = .fin q1 → v2 = .fin 0 → u1 = emptyCU → u2 = emptyCU →
        (CompositeUnitDivision v1 v2 u1 u2).1
          = (if q1.num = 0 then GoFloat.nan else if 0 < q1.num then GoFloat.pinf
              else GoFloat.ninf)
        ∧ (CompositeUnitDivision v1 v2 u1 u2).2 = emptyCU) := by
  constructor
  · have hstep : executeAst (fuel + 1) (.mk "Operator" "/" [a1, a2] emptyCU) lines vars
        = match executeAst fuel a1 lines vars, executeAst fuel a2 lines vars with
          | .error e, _ => .error e
          | _, .error e => .error e
          | .ok (w1, x1), .ok (w2, x2) =>
            .ok ((CompositeUnitDivision w1 w2 x1 x2).1, (CompositeUnitDivision w1 w2 x1 x2).2) := rfl
    rw [hstep, h1, h2]
  · intro q1 e1 e2 e3 e4
    subst e1; subst e2; subst e3; subst e4
    exact ⟨rfl, rfl⟩

theorem claim_C10_division_no_error_witness :
    executeAst 2 (.mk "Operator" "/" [.mk "NumberLiteral" "1" [] emptyCU,
        .mk "NumberLiteral" "0" [] emptyCU] emptyCU) [] []
      = .ok (CompositeUnitDivision (.fin 1) (.fin 0) emptyCU emptyCU)
    ∧ (∀ q1, GoFloat.fin 1 = .fin q1 → GoFloat.fin 0 = .fin 0 → emptyCU = emptyCU →
        emptyCU = emptyCU →
        (CompositeUnitDivision (.fin 1) (.fin 0) emptyCU emptyCU).1
          = (if q1.num = 0 then GoFloat.nan else if 0 < q1.num then GoFloat.pinf
              else GoFloat.ninf)
        ∧ (CompositeUnitDivision (.fin 1) (.fin 0) emptyCU emptyCU).2 = emptyCU) :=
  claim_C10_division_no_error 1 (.mk "NumberLiteral" "1" [] emptyCU)
    (.mk "NumberLiteral" "0" [] emptyCU) [] [] (.fin 1) (.fin 0) emptyCU emptyCU
    (by decide) (by decide)

/-! ## Order facts about the string comparison -/

theorem charsLt_irrefl (l : List Char) : charsLt l l = false := by
  induction l with
  | nil => rfl
  | cons a as ih => simp [charsLt, ih]

theorem charsLt_trans : ∀ {a b c : List Char},
    charsLt a b = true → charsLt b c = true → charsLt a c = true := by
  intro a
  induction a with
  | nil =>
    intro b c hab hbc
    cases b with
    | nil => simp [charsLt] at hab
    | cons y ys =>
      cases c with
      | nil => simp [charsLt] at hbc
      | cons z zs => simp [charsLt]
  | cons x xs ih =>
    intro b c hab hbc
    cases b with
    | nil => simp [charsLt] at hab
    | cons y ys =>
      cases c with
      | nil => simp [charsLt] at hbc
      | cons z zs =>
        simp only [charsLt] at hab hbc ⊢
        by_cases hxy : x.toNat < y.toNat
        · by_cases hyz : y.toNat < z.toNat
          · simp [show x.toNat < z.toNat by omega]
          · rw [if_neg hyz] at hbc
            by_cases hzy : z.toNat < y.toNat
            · simp [hzy] at hbc
            · simp [show x.toNat < z.toNat by omega]
        · rw [if_neg hxy] at hab
          by_cases hyx : y.toNat < x.toNat
          · simp [hyx] at hab
          · rw [if_neg hyx] at hab
            by_cases hyz : y.toNat < z.toNat
            · simp [show x.toNat < z.toNat by omega]
            · rw [if_neg hyz] at hbc
              by_cases hzy : z.toNat < y.toNat
              · simp [hzy] at hbc
              · rw [if_neg hzy] at hbc
                rw [if_neg (show ¬ x.toNat < z.toNat by omega),
                  if_neg (show ¬ z.toNat < x.toNat by omega)]
                exact ih hab hbc

theorem charsLt_connex : ∀ {a b : List Char},
    charsLt a b = false → charsLt b a = false → a = b := by
  intro a
  induction a with
  | nil =>
    intro b h1 _
    cases b with
    | nil => rfl
    | cons y ys => simp [charsLt] at h1
  | cons x xs ih =>
    intro b h1 h2
    cases b with
    | nil => simp [charsLt] at h2
    | cons y ys =>
      simp only [charsLt] at h1 h2
      by_cases hxy : x.toNat < y.toNat
      · simp [hxy] at h1
      · by_cases hyx : y.toNat < x.toNat
        · simp [hyx] at h2
        · rw [if_neg hxy, if_neg hyx] at h1
          rw [if_neg hyx, if_neg hxy] at h2
          have hn : x.toNat = y.toNat := by omega
          have hx : x = y := Char.ext (UInt32.ext hn)
          rw [hx, ih h1 h2]

theorem charsLt_asymm {a b : List Char} (h : charsLt a b = true) : charsLt b a = false := by
  by_contra h2
  simp only [Bool.not_eq_false] at h2
  have h3 := charsLt_trans h h2
  rw [charsLt_irrefl] at h3
  exact Bool.noConfusion h3

theorem strLt_irrefl (s : String) : strLt s s = false := charsLt_irrefl _

theorem strLt_trans {a b c : String} (h1 : strLt a b = true) (h2 : strLt b c = true) :
    strLt a c = true := charsLt_trans h1 h2

theorem strLt_connex {a b : String} (h1 : strLt a b = false) (h2 : strLt b a = false) :
    a = b := by
  have h3 := charsLt_connex h1 h2
  cases a with
  | mk da =>
    cases b with
    | mk db => exact congrArg String.mk h3

theorem strLt_asymm {a b : String} (h : strLt a b = true) : strLt b a = false :=
  charsLt_asymm h

/-! ## C3: well-formedness of composite units -/

/-- The spec's invariant for composite units: no two entries share a
base-unit family, and no entry has exponent zero. -/
def WellFormedCU (cu : CompositeUnit) : Prop :=
  cu.UnitsList.Pairwise (fun e1 e2 => e1.Unit.BaseUnit ≠ e2.Unit.BaseUnit)
  ∧ ∀ e ∈ cu.UnitsList, e.Exponent ≠ 0

instance (cu : CompositeUnit) : Decidable (WellFormedCU cu) := by
  unfold WellFormedCU; infer_instance

theorem rmul_eq (a b : Rat) : rmul a b = a * b := by
  rw [Rat.mul_def, Rat.normalize_eq_mkRat]; rfl

/-- Strict order on entries by base-unit family name. -/
def famLt (e1 e2 : UnitExponent) : Prop :=
  strLt e1.Unit.BaseUnit e2.Unit.BaseUnit = true

instance : IsTotal UnitExponent (fun a b => baseLess b a = false) := by
  constructor
  intro a b
  by_cases h : baseLess b a = false
  · exact Or.inl h
  · refine Or.inr ?_
    simp only [Bool.not_eq_false] at h
    exact strLt_asymm h

instance : IsTrans UnitExponent (fun a b => baseLess b a = false) := by
  constructor
  intro a b c hab hbc
  simp only [baseLess] at hab hbc ⊢
  by_cases hll : strLt c.Unit.BaseUnit a.Unit.BaseUnit = true
  · by_cases hbc2 : strLt b.Unit.BaseUnit c.Unit.BaseUnit = true
    · have := strLt_trans hbc2 hll
      rw [this] at hab
      exact Bool.noConfusion hab
    · simp only [Bool.not_eq_true] at hbc2
      have hcb : b.Unit.BaseUnit = c.Unit.BaseUnit := strLt_connex hbc2 hbc
      rw [← hcb] at hll
      rw [hll] at hab
      exact Bool.noConfusion hab
  · simpa using hll

theorem sortByBase_perm (cu : CompositeUnit) :
    cu.sortByBaseUnitName.UnitsList.Perm cu.UnitsList :=
  List.perm_insertionSort _ _

theorem cuSort_perm (cu : CompositeUnit) :
    cu.sort.UnitsList.Perm cu.UnitsList :=
  List.perm_insertionSort _ _

/-- Sorting a well-formed unit by family yields a strictly family-sorted
entry list. -/
theorem sortByBase_pairwise_famLt (cu : CompositeUnit) (h : WellFormedCU cu) :
    cu.sortByBaseUnitName.UnitsList.Pairwise famLt := by
  have hs : cu.sortByBaseUnitName.UnitsList.Pairwise (fun a b => baseLess b a = false) :=
    List.sorted_insertionSort _ _
  have hne : cu.sortByBaseUnitName.UnitsList.Pairwise
      (fun e1 e2 => e1.Unit.BaseUnit ≠ e2.Unit.BaseUnit) := by
    refine (List.Perm.pairwise_iff ?_ (sortByBase_perm cu)).mpr h.1
    intro x y hxy
    exact fun he => hxy he.symm
  refine (hs.and hne).imp ?_
  intro a b hab
  rcases hab with ⟨hle, hne2⟩
  simp only [baseLess] at hle
  by_cases h2 : strLt a.Unit.BaseUnit b.Unit.BaseUnit = true
  · exact h2
  · simp only [Bool.not_eq_true] at h2
    exact absurd (strLt_connex h2 hle) hne2

/-- The merge loop of CompositeUnitProduct keeps entry lists strictly
family-sorted, keeps all exponents nonzero, and introduces no family that
was not in one of the inputs. -/
theorem mergeUnitsAux_wf : ∀ (fuel : Nat) (aL bL : List UnitExponent) (v : GoFloat),
    aL.length + bL.length ≤ fuel →
    aL.Pairwise famLt → bL.Pairwise famLt →
    (∀ e ∈ aL, e.Exponent ≠ 0) → (∀ e ∈ bL, e.Exponent ≠ 0) →
    (mergeUnitsAux fuel aL bL v).2.Pairwise famLt
    ∧ (∀ e ∈ (mergeUnitsAux fuel aL bL v).2, e.Exponent ≠ 0)
    ∧ (∀ e ∈ (mergeUnitsAux fuel aL bL v).2,
        (∃ x ∈ aL, x.Unit.BaseUnit = e.Unit.BaseUnit)
        ∨ ∃ x ∈ bL, x.Unit.BaseUnit = e.Unit.BaseUnit) := by
  intro fuel
  induction fuel with
  | zero =>
    intro aL bL v hlen hpa hpb hza hzb
    cases aL with
    | nil =>
      cases bL with
      | nil => simp [mergeUnitsAux]
      | cons b bs => simp at hlen
    | cons a as => simp at hlen
  | succ fuel ih =>
    intro aL bL v hlen hpa hpb hza hzb
    cases aL with
    | nil =>
      cases bL with
      | nil => simp [mergeUnitsAux]
      | cons b bs =>
        simp only [mergeUnitsAux]
        have hr := ih [] bs v (by simp at hlen ⊢; omega) (by simp)
          (List.pairwise_cons.mp hpb).2 (by simp)
          (fun e he => hzb e (List.mem_cons_of_mem _ he))
        refine ⟨?_, ?_, ?_⟩
        · refine List.pairwise_cons.mpr ⟨?_, hr.1⟩
          intro e he
          rcases hr.2.2 e he with ⟨x, hx, hfam⟩ | ⟨x, hx, hfam⟩
          · exact absurd hx (List.not_mem_nil x)
          · have := (List.pairwise_cons.mp hpb).1 x hx
            simpa [famLt, hfam] using this
        · intro e he
          rcases List.mem_cons.mp he with rfl | he2
          · exact hzb e (List.mem_cons_self _ _)
          · exact hr.2.1 e he2
        · intro e he
          rcases List.mem_cons.mp he with rfl | he2
          · exact Or.inr ⟨e, List.mem_cons_self _ _, rfl⟩
          · rcases hr.2.2 e he2 with ⟨x, hx, hfam⟩ | ⟨x, hx, hfam⟩
            · exact absurd hx (List.not_mem_nil x)
            · exact Or.inr ⟨x, List.mem_cons_of_mem _ hx, hfam⟩
    | cons a as =>
      cases bL with
      | nil =>
        simp only [mergeUnitsAux]
        have hr := ih as [] v (by simp at hlen ⊢; omega)
          (List.pairwise_cons.mp hpa).2 (by simp)
          (fun e he => hza e (List.mem_cons_of_mem _ he)) (by simp)
        refine ⟨?_, ?_, ?_⟩
        · refine List.pairwise_cons.mpr ⟨?_, hr.1⟩
          intro e he
          rcases hr.2.2 e he with ⟨x, hx, hfam⟩ | ⟨x, hx, hfam⟩
          · have := (List.pairwise_cons.mp hpa).1 x hx
            simpa [famLt, hfam] using this
          · exact absurd hx (List.not_mem_nil x)
        · intro e he
          rcases List.mem_cons.mp he with rfl | he2
          · exact hza e (List.mem_cons_self _ _)
          · exact hr.2.1 e he2
        · intro e he
          rcases List.mem_cons.mp he with rfl | he2
          · exact Or.inl ⟨e, List.mem_cons_self _ _, rfl⟩
          · rcases hr.2.2 e he2 with ⟨x, hx, hfam⟩ | ⟨x, hx, hfam⟩
            · exact Or.inl ⟨x, List.mem_cons_of_mem _ hx, hfam⟩
            · exact absurd hx (List.not_mem_nil x)
      | cons b bs =>
        have hlen2 : as.length + bs.length ≤ fuel := by simp at hlen; omega
        have hpa2 := (List.pairwise_cons.mp hpa).2
        have hpb2 := (List.pairwise_cons.mp hpb).2
        have hza2 : ∀ e ∈ as, e.Exponent ≠ 0 :=
          fun e he => hza e (List.mem_cons_of_mem _ he)
        have hzb2 : ∀ e ∈ bs, e.Exponent ≠ 0 :=
          fun e he => hzb e (List.mem_cons_of_mem _ he)
        simp only [mergeUnitsAux]
        by_cases hc : AreUnitsCompatible a.Unit b.Unit
        · have hfam : a.Unit.BaseUnit = b.Unit.BaseUnit := by
            simpa [AreUnitsCompatible] using hc
          rw [if_pos hc]
          have hr := ih as bs (ConvertFundamentalUnits v b.Unit a.Unit b.Exponent)
            (by omega) hpa2 hpb2 hza2 hzb2
          by_cases hz : ((⟨a.Unit, radd a.Exponent b.Exponent⟩ : UnitExponent).Exponent == 0)
          · rw [if_pos hz]
            refine ⟨hr.1, hr.2.1, ?_⟩
            intro e he
            rcases hr.2.2 e he with ⟨x, hx, hf⟩ | ⟨x, hx, hf⟩
            · exact Or.inl ⟨x, List.mem_cons_of_mem _ hx, hf⟩
            · exact Or.inr ⟨x, List.mem_cons_of_mem _ hx, hf⟩
          · rw [if_neg hz]
            refine ⟨?_, ?_, ?_⟩
            · refine List.pairwise_cons.mpr ⟨?_, hr.1⟩
              intro e he
              rcases hr.2.2 e he with ⟨x, hx, hf⟩ | ⟨x, hx, hf⟩
              · have := (List.pairwise_cons.mp hpa).1 x hx
                simpa [famLt, hf] using this
              · have := (List.pairwise_cons.mp hpb).1 x hx
                simp only [famLt] at this ⊢
                rw [hfam]
                rw [hf] at this
                exact this
            · intro e he
              rcases List.mem_cons.mp he with rfl | he2
              · simpa using hz
              · exact hr.2.1 e he2
            · intro e he
              rcases List.mem_cons.mp he with rfl | he2
              · exact Or.inl ⟨a, List.mem_cons_self _ _, rfl⟩
              · rcases hr.2.2 e he2 with ⟨x, hx, hf⟩ | ⟨x, hx, hf⟩
                · exact Or.inl ⟨x, List.mem_cons_of_mem _ hx, hf⟩
                · exact Or.inr ⟨x, List.mem_cons_of_mem _ hx, hf⟩
        · rw [if_neg hc]
          have hfamne : a.Unit.BaseUnit ≠ b.Unit.BaseUnit := by
            simpa [AreUnitsCompatible] using hc
          by_cases hlt : strLt a.Unit.BaseUnit b.Unit.BaseUnit
          · rw [if_pos hlt]
            have hr := ih as (b :: bs) v (by simp at hlen ⊢; omega) hpa2 hpb
              hza2 hzb
            refine ⟨?_, ?_, ?_⟩
            · refine List.pairwise_cons.mpr ⟨?_, hr.1⟩
              intro e he
              rcases hr.2.2 e he with ⟨x, hx, hf⟩ | ⟨x, hx, hf⟩
              · have := (List.pairwise_cons.mp hpa).1 x hx
                simpa [famLt, hf] using this
              · rcases List.mem_cons.mp hx with rfl | hx2
                · simpa [famLt, hf] using hlt
                · have hbx := (List.pairwise_cons.mp hpb).1 x hx2
                  simp only [famLt] at hbx ⊢
                  rw [← hf]
                  exact strLt_trans hlt hbx
            · intro e he
              rcases List.mem_cons.mp he with rfl | he2
              · exact hza e (List.mem_cons_self _ _)
              · exact hr.2.1 e he2
            · intro e he
              rcases List.mem_cons.mp he with rfl | he2
              · exact Or.inl ⟨e, List.mem_cons_self _ _, rfl⟩
              · rcases hr.2.2 e he2 with ⟨x, hx, hf⟩ | ⟨x, hx, hf⟩
                · exact Or.inl ⟨x, List.mem_cons_of_mem _ hx, hf⟩
                · exact Or.inr ⟨x, hx, hf⟩
          · rw [if_neg hlt]
            have hblt : strLt b.Unit.BaseUnit a.Unit.BaseUnit = true := by
              simp only [Bool.not_eq_true] at hlt
              by_cases h2 : strLt b.Unit.BaseUnit a.Unit.BaseUnit = true
              · exact h2
              · simp only [Bool.not_eq_true] at h2
                exact absurd (strLt_connex hlt h2) hfamne
            have hr := ih (a :: as) bs v (by simp at hlen ⊢; omega) hpa hpb2
              hza hzb2
            refine ⟨?_, ?_, ?_⟩
            · refine List.pairwise_cons.mpr ⟨?_, hr.1⟩
              intro e he
              rcases hr.2.2 e he with ⟨x, hx, hf⟩ | ⟨x, hx, hf⟩
              · rcases List.mem_cons.mp hx with rfl | hx2
                · simp only [famLt]
                  rw [← hf]
                  exact hblt
                · have hax := (List.pairwise_cons.mp hpa).1 x hx2
                  simp only [famLt] at hax ⊢
                  rw [← hf]
                  exact strLt_trans hblt hax
              · have := (List.pairwise_cons.mp hpb).1 x hx
                simpa [famLt, hf] using this
            · intro e he
              rcases List.mem_cons.mp he with rfl | he2
              · exact hzb e (List.mem_cons_self _ _)
              · exact hr.2.1 e he2
            · intro e he
              rcases List.mem_cons.mp he with rfl | he2
              · exact Or.inr ⟨e, List.mem_cons_self _ _, rfl⟩
              · rcases hr.2.2 e he2 with ⟨x, hx, hf⟩ | ⟨x, hx, hf⟩
                · exact Or.inl ⟨x, hx, hf⟩
                · exact Or.inr ⟨x, List.mem_cons_of_mem _ hx, hf⟩

theorem famLt_ne {x y : UnitExponent} (h : famLt x y) :
    x.Unit.BaseUnit ≠ y.Unit.BaseUnit := by
  intro heq
  simp only [famLt, heq] at h
  rw [strLt_irrefl] at h
  exact Bool.noConfusion h

theorem CompositeUnitExponentiation_wf (a : CompositeUnit) (e : Rat)
    (ha : WellFormedCU a) (he : e ≠ 0) :
    WellFormedCU (CompositeUnitExponentiation a e) := by
  constructor
  · simp only [CompositeUnitExponentiation]
    rw [List.pairwise_map]
    exact ha.1
  · intro x hx
    simp only [CompositeUnitExponentiation, List.mem_map] at hx
    rcases hx with ⟨y, hy, rfl⟩
    simp only
    rw [rmul_eq]
    exact mul_ne_zero (ha.2 y hy) he

theorem CompositeUnitProduct_wf (va vb : GoFloat) (a b : CompositeUnit)
    (ha : WellFormedCU a) (hb : WellFormedCU b) :
    WellFormedCU (CompositeUnitProduct va vb a b).2 := by
  have hpa := sortByBase_pairwise_famLt a ha
  have hpb := sortByBase_pairwise_famLt b hb
  have hza : ∀ e ∈ a.sortByBaseUnitName.UnitsList, e.Exponent ≠ 0 :=
    fun e he => ha.2 e ((sortByBase_perm a).subset he)
  have hzb : ∀ e ∈ b.sortByBaseUnitName.UnitsList, e.Exponent ≠ 0 :=
    fun e he => hb.2 e ((sortByBase_perm b).subset he)
  have hm := mergeUnitsAux_wf
    (a.sortByBaseUnitName.UnitsList.length + b.sortByBaseUnitName.UnitsList.length)
    a.sortByBaseUnitName.UnitsList b.sortByBaseUnitName.UnitsList
    (GoFloat.mul va vb) le_rfl hpa hpb hza hzb
  have hres : (CompositeUnitProduct va vb a b).2
      = CompositeUnit.sort ⟨(mergeUnitsAux
        (a.sortByBaseUnitName.UnitsList.length + b.sortByBaseUnitName.UnitsList.length)
        a.sortByBaseUnitName.UnitsList b.sortByBaseUnitName.UnitsList
        (GoFloat.mul va vb)).2⟩ := rfl
  rw [hres]
  constructor
  · have hne := hm.1.imp (fun h => famLt_ne h)
    refine (List.Perm.pairwise_iff ?_ (cuSort_perm _)).mpr hne
    intro x y hxy
    exact fun heq => hxy heq.symm
  · intro x hx
    exact hm.2.1 x ((cuSort_perm _).subset hx)

theorem CompositeUnitDivision_wf (va vb : GoFloat) (a b : CompositeUnit)
    (ha : WellFormedCU a) (hb : WellFormedCU b) :
    WellFormedCU (CompositeUnitDivision va vb a b).2 :=
  CompositeUnitProduct_wf va (GoFloat.div (GoFloat.fin 1) vb) a
    (CompositeUnitExponentiation b (-1)) ha
    (CompositeUnitExponentiation_wf b (-1) hb (by norm_num))

/-- C3 counterexample: the claim is false on the code.  Bracket-unit
parsing does not establish the invariant: `5 [m m]` parses successfully to
a composite unit holding two entries of the meter family, and `5 [m^0]`
to a unit holding a zero-exponent entry. -/
theorem claim_C3_unit_invariant_cex :
    ((tokenizeParseLine "5 [m m]" []).toOption.map
      (fun a => (decide (WellFormedCU a.Unit),
        a.Unit.UnitsList.map (fun e => (e.Unit.BaseUnit, e.Exponent)))))
      = some (false, [("meter", 1), ("meter", 1)])
    ∧ ((tokenizeParseLine "5 [m^0]" []).toOption.map
      (fun a => (decide (WellFormedCU a.Unit),
        a.Unit.UnitsList.map (fun e => (e.Unit.BaseUnit, e.Exponent)))))
      = some (false, [("meter", 0)]) :=
  ⟨by decide, by decide⟩

/-- C3, amended: the evaluator's product, division and (nonzero-power)
exponentiation operations preserve well-formedness — entries of one
base-unit family are merged and zero-exponent results dropped — but
bracket-unit parsing (parseUnitAst) can itself produce ill-formed units
(duplicate family in [m m], zero exponent in [m^0]), and exponentiation by
zero keeps zero-exponent entries. -/
theorem claim_C3_unit_invariant (va vb : GoFloat) (a b : CompositeUnit) (e : Rat)
    (ha : WellFormedCU a) (hb : WellFormedCU b) (he : e ≠ 0) :
    WellFormedCU (CompositeUnitProduct va vb a b).2
    ∧ WellFormedCU (CompositeUnitDivision va vb a b).2
    ∧ WellFormedCU (CompositeUnitExponentiation a e) :=
  ⟨CompositeUnitProduct_wf va vb a b ha hb,
   CompositeUnitDivision_wf va vb a b ha hb,
   CompositeUnitExponentiation_wf a e ha he⟩

theorem claim_C3_unit_invariant_witness :
    WellFormedCU (CompositeUnitProduct (.fin 3) (.fin 4)
      ⟨[⟨unitTableGet "meter", 1⟩]⟩ ⟨[⟨unitTableGet "second", 2⟩]⟩).2
    ∧ WellFormedCU (CompositeUnitDivision (.fin 3) (.fin 4)
      ⟨[⟨unitTableGet "meter", 1⟩]⟩ ⟨[⟨unitTableGet "second", 2⟩]⟩).2
    ∧ WellFormedCU (CompositeUnitExponentiation ⟨[⟨unitTableGet "meter", 1⟩]⟩ 2) :=
  claim_C3_unit_invariant (.fin 3) (.fin 4) ⟨[⟨unitTableGet "meter", 1⟩]⟩
    ⟨[⟨unitTableGet "second", 2⟩]⟩ 2 (by decide) (by decide) (by decide)

/-! ## C4: the string rendering of composite units -/

theorem strData_append (a b : String) : (a ++ b).data = a.data ++ b.data := by
  cases a; cases b; rfl

theorem strEq_of_data {a b : String} (h : a.data = b.data) : a = b := by
  cases a with
  | mk da =>
    cases b with
    | mk db => exact congrArg String.mk h

theorem strAppend_empty (a : String) : a ++ "" = a := by
  apply strEq_of_data
  simp [strData_append]

theorem strNe_empty_left {a : String} (h : a ≠ "") (b : String) : a ++ b ≠ "" := by
  intro hab
  apply h
  apply strEq_of_data
  have h2 := congrArg String.data hab
  rw [strData_append] at h2
  simpa using (List.append_eq_nil.mp (by simpa using h2)).1

/-- Modelled from the spec: the rendering of one entry, exponent magnitude
omitted when 1, otherwise `unit^exponent`. -/
def atomSpec (e : UnitExponent) : String :=
  let m := if Rat.blt e.Exponent 0 then rneg e.Exponent else e.Exponent
  if m != 1 then e.Unit.toString ++ "^" ++ formatExp m else e.Unit.toString

/-- Modelled from the spec (amended): a negative-exponent entry is
prefixed with `/`. -/
def pieceSpec (e : UnitExponent) : String :=
  if Rat.blt e.Exponent 0 then "/ " ++ atomSpec e else atomSpec e

def joinSpace : List String → String
  | [] => ""
  | [x] => x
  | x :: y :: rest => x ++ " " ++ joinSpace (y :: rest)

/-- Modelled from the spec (amended): canonical-sorted entries, rendered
one by one and space-separated, with a leading `1` when the list opens
with a negative exponent. -/
def renderSpec (cu : CompositeUnit) : String :=
  match cu.sort.UnitsList with
  | [] => ""
  | e :: rest =>
    (if Rat.blt e.Exponent 0 then "1 " else "")
      ++ joinSpace ((e :: rest).map pieceSpec)

def joinParts : List UnitExponent → String
  | [] => ""
  | e :: rest => " " ++ pieceSpec e ++ joinParts rest

theorem joinSpace_map_eq : ∀ (rest : List UnitExponent) (e : UnitExponent),
    joinSpace ((e :: rest).map pieceSpec) = pieceSpec e ++ joinParts rest := by
  intro rest
  induction rest with
  | nil =>
    intro e
    simp only [List.map, joinSpace, joinParts]
    exact (strAppend_empty _).symm
  | cons q rest2 ih =>
    intro e
    simp only [List.map] at ih ⊢
    rw [show joinSpace (pieceSpec e :: pieceSpec q :: List.map pieceSpec rest2)
      = pieceSpec e ++ " " ++ joinSpace (pieceSpec q :: List.map pieceSpec rest2) from rfl]
    rw [ih q]
    apply strEq_of_data
    simp [strData_append, joinParts]

theorem cuStringStep_ne_empty (s : String) (hs : s ≠ "") (e : UnitExponent) :
    cuStringStep (s, true) e = (s ++ " " ++ pieceSpec e, true) := by
  have hb : (s == "") = false := by simpa using hs
  have hb2 : (s != "") = true := by simpa using hs
  by_cases hneg : Rat.blt e.Exponent 0 = true
  · have h1 : ((s ++ " /") != "") = true := by simpa using strNe_empty_left hs " /"
    simp only [cuStringStep, hneg, hb, hb2, h1, pieceSpec, atomSpec, Bool.true_and,
      Bool.and_true, if_true, if_false, Bool.false_eq_true]
    split_ifs <;> (refine congrArg (fun t => (t, true)) ?_) <;>
      (apply strEq_of_data; simp [strData_append])
  · have hneg2 : Rat.blt e.Exponent 0 = false := by simpa using hneg
    simp only [cuStringStep, hneg2, hb, hb2, pieceSpec, atomSpec, Bool.true_and,
      Bool.and_true, if_true, if_false, Bool.false_eq_true]
    split_ifs <;> (refine congrArg (fun t => (t, true)) ?_) <;>
      (apply strEq_of_data; simp [strData_append])

theorem cuStringFold_go (l : List UnitExponent) : ∀ s : String, s ≠ "" →
    (List.foldl cuStringStep (s, true) l).1 = s ++ joinParts l := by
  induction l with
  | nil =>
    intro s _
    simp only [List.foldl_nil, joinParts]
    exact (strAppend_empty s).symm
  | cons e rest ih =>
    intro s hs
    rw [List.foldl_cons, cuStringStep_ne_empty s hs e]
    rw [ih _ (strNe_empty_left (strNe_empty_left hs _) _)]
    apply strEq_of_data
    simp [strData_append, joinParts]

theorem cuStringStep_start_neg (e : UnitExponent) (hneg : Rat.blt e.Exponent 0 = true) :
    cuStringStep ("", true) e = ("1 / " ++ atomSpec e, true) := by
  have e1 : ((("" : String) == "") = true) := rfl
  have e2 : ((("1" : String) ++ " /") != "") = true := rfl
  simp only [cuStringStep, hneg, e1, e2, atomSpec, Bool.true_and, if_true]
  split_ifs <;> (refine congrArg (fun t => (t, true)) ?_) <;>
    (apply strEq_of_data; simp [strData_append])

theorem cuStringStep_start_pos (e : UnitExponent) (hneg : Rat.blt e.Exponent 0 = false) :
    cuStringStep ("", true) e = (atomSpec e, true) := by
  have e1 : ((("" : String) != "") = false) := rfl
  simp only [cuStringStep, hneg, e1, atomSpec, Bool.true_and, if_false,
    Bool.false_eq_true]
  split_ifs <;> (refine congrArg (fun t => (t, true)) ?_) <;>
    (apply strEq_of_data; simp [strData_append])

theorem atomSpec_ne_empty (e : UnitExponent) (h : e.Unit.DisplayValue ≠ "") :
    atomSpec e ≠ "" := by
  simp only [atomSpec]
  split_ifs <;> first
    | exact strNe_empty_left (strNe_empty_left h _) _
    | exact h

/-- The rendering loop of CompositeUnit.String agrees with the spec-worded
rendering, for units whose display symbols are nonempty (every catalog and
custom unit has a nonempty symbol). -/
theorem render_eq_renderSpec (cu : CompositeUnit)
    (hdisp : ∀ e ∈ cu.UnitsList, e.Unit.DisplayValue ≠ "") :
    cu.render = renderSpec cu := by
  have hd2 : ∀ e ∈ cu.sort.UnitsList, e.Unit.DisplayValue ≠ "" :=
    fun e he => hdisp e ((cuSort_perm cu).subset he)
  unfold CompositeUnit.render renderSpec
  cases hl : cu.sort.UnitsList with
  | nil => rfl
  | cons e rest =>
    have hde : e.Unit.DisplayValue ≠ "" := hd2 e (by rw [hl]; exact List.mem_cons_self _ _)
    show (List.foldl cuStringStep (cuStringStep ("", true) e) rest).1
      = (if Rat.blt e.Exponent 0 = true then "1 " else "")
        ++ joinSpace (List.map pieceSpec (e :: rest))
    rw [joinSpace_map_eq]
    by_cases hneg : Rat.blt e.Exponent 0 = true
    · rw [cuStringStep_start_neg e hneg,
        cuStringFold_go rest _ (strNe_empty_left (by decide) _), if_pos hneg]
      apply strEq_of_data
      simp [strData_append, pieceSpec, hneg]
    · have hneg2 : Rat.blt e.Exponent 0 = false := by simpa using hneg
      rw [cuStringStep_start_pos e hneg2,
        cuStringFold_go rest _ (atomSpec_ne_empty e hde), if_neg (by simp [hneg2])]
      apply strEq_of_data
      simp [strData_append, pieceSpec, hneg2]

theorem blt_true_iff (x y : Rat) : Rat.blt x y = true ↔ x < y := Eq.to_iff rfl

theorem blt_of_lt {x y : Rat} (h : x < y) : Rat.blt x y = true := (blt_true_iff x y).mpr h

theorem blt_false_of_not_lt {x y : Rat} (h : ¬ x < y) : Rat.blt x y = false := by
  cases hb : Rat.blt x y
  · rfl
  · exact absurd ((blt_true_iff x y).mp hb) h

theorem cuLess_asymm {a b : UnitExponent} (h : cuLess a b = true) : cuLess b a = false := by
  simp only [cuLess] at h ⊢
  by_cases hc1 : (Rat.blt 0 a.Exponent && Rat.blt b.Exponent 0) = true
  · have hab := hc1
    rw [Bool.and_eq_true] at hab
    have ha := hab.1
    have hb := hab.2
    have h0b : Rat.blt 0 b.Exponent = false := by
      apply blt_false_of_not_lt
      have := (blt_true_iff _ _).mp hb
      linarith
    have hc1' : ¬ (Rat.blt 0 b.Exponent && Rat.blt a.Exponent 0) = true := by
      simp [h0b]
    have hc2' : (Rat.blt b.Exponent 0 && Rat.blt 0 a.Exponent) = true := by
      simp [hb, ha]
    rw [if_neg hc1', if_pos hc2']
  · rw [if_neg hc1] at h
    by_cases hc2 : (Rat.blt a.Exponent 0 && Rat.blt 0 b.Exponent) = true
    · rw [if_pos hc2] at h
      exact Bool.noConfusion h
    · rw [if_neg hc2] at h
      have hc1' : ¬ (Rat.blt 0 b.Exponent && Rat.blt a.Exponent 0) = true := by
        intro hcc
        apply hc2
        rw [Bool.and_eq_true] at hcc ⊢
        exact ⟨hcc.2, hcc.1⟩
      have hc2' : ¬ (Rat.blt b.Exponent 0 && Rat.blt 0 a.Exponent) = true := by
        intro hcc
        apply hc1
        rw [Bool.and_eq_true] at hcc ⊢
        exact ⟨hcc.2, hcc.1⟩
      rw [if_neg hc1', if_neg hc2']
      exact strLt_asymm h

/-- Sign class of an entry used by the canonical comparator: positive
exponents first. -/
def cuRank (e : UnitExponent) : Nat :=
  if Rat.blt 0 e.Exponent = true then 0 else 1

theorem cuLess_char_nz {a b : UnitExponent} (ha : a.Exponent ≠ 0) (hb : b.Exponent ≠ 0) :
    (cuLess a b = true) ↔ (cuRank a < cuRank b
      ∨ (cuRank a = cuRank b ∧ strLt a.Unit.DisplayValue b.Unit.DisplayValue = true)) := by
  rcases lt_or_gt_of_ne ha with ha1 | ha1 <;> rcases lt_or_gt_of_ne hb with hb1 | hb1
  · have v1 : Rat.blt 0 a.Exponent = false := blt_false_of_not_lt (by linarith)
    have v2 : Rat.blt a.Exponent 0 = true := blt_of_lt ha1
    have v3 : Rat.blt 0 b.Exponent = false := blt_false_of_not_lt (by linarith)
    have v4 : Rat.blt b.Exponent 0 = true := blt_of_lt hb1
    simp [cuLess, cuRank, v1, v2, v3, v4]
  · have v1 : Rat.blt 0 a.Exponent = false := blt_false_of_not_lt (by linarith)
    have v2 : Rat.blt a.Exponent 0 = true := blt_of_lt ha1
    have v3 : Rat.blt 0 b.Exponent = true := blt_of_lt hb1
    have v4 : Rat.blt b.Exponent 0 = false := blt_false_of_not_lt (by linarith)
    simp [cuLess, cuRank, v1, v2, v3, v4]
  · have v1 : Rat.blt 0 a.Exponent = true := blt_of_lt ha1
    have v2 : Rat.blt a.Exponent 0 = false := blt_false_of_not_lt (by linarith)
    have v3 : Rat.blt 0 b.Exponent = false := blt_false_of_not_lt (by linarith)
    have v4 : Rat.blt b.Exponent 0 = true := blt_of_lt hb1
    simp [cuLess, cuRank, v1, v2, v3, v4]
  · have v1 : Rat.blt 0 a.Exponent = true := blt_of_lt ha1
    have v2 : Rat.blt a.Exponent 0 = false := blt_false_of_not_lt (by linarith)
    have v3 : Rat.blt 0 b.Exponent = true := blt_of_lt hb1
    have v4 : Rat.blt b.Exponent 0 = false := blt_false_of_not_lt (by linarith)
    simp [cuLess, cuRank, v1, v2, v3, v4]

theorem cuCmp_total (x y : UnitExponent) :
    (cuLess y x = false) ∨ (cuLess x y = false) := by
  by_cases h : cuLess y x = false
  · exact Or.inl h
  · simp only [Bool.not_eq_false] at h
    exact Or.inr (cuLess_asymm h)

theorem cuCmp_trans {x y z : UnitExponent} (hx : x.Exponent ≠ 0) (hy : y.Exponent ≠ 0)
    (hz : z.Exponent ≠ 0) (h1 : cuLess y x = false) (h2 : cuLess z y = false) :
    cuLess z x = false := by
  cases hzx : cuLess z x
  · rfl
  · exfalso
    have hzx2 := (cuLess_char_nz hz hx).mp hzx
    have h1' : ¬ (cuRank y < cuRank x
        ∨ (cuRank y = cuRank x ∧ strLt y.Unit.DisplayValue x.Unit.DisplayValue = true)) := by
      intro hcontra
      rw [(cuLess_char_nz hy hx).mpr hcontra] at h1
      exact Bool.noConfusion h1
    have h2' : ¬ (cuRank z < cuRank y
        ∨ (cuRank z = cuRank y ∧ strLt z.Unit.DisplayValue y.Unit.DisplayValue = true)) := by
      intro hcontra
      rw [(cuLess_char_nz hz hy).mpr hcontra] at h2
      exact Bool.noConfusion h2
    push_neg at h1' h2'
    rcases hzx2 with hlt | ⟨heq, hstr⟩
    · -- cuRank z < cuRank x while x ≤ y ≤ z in rank
      have hxy : cuRank x ≤ cuRank y := h1'.1
      have hyz : cuRank y ≤ cuRank z := h2'.1
      omega
    · have hxy : cuRank x ≤ cuRank y := h1'.1
      have hyz : cuRank y ≤ cuRank z := h2'.1
      have hxz : cuRank x = cuRank y := by omega
      have hyz2 : cuRank y = cuRank z := by omega
      have hs1 := h1'.2 hxz.symm
      have hs2 := h2'.2 hyz2.symm
      -- strLt z x, ¬ strLt y x, ¬ strLt z y: so x ≤ y ≤ z < x in display order
      have hxy2 : strLt x.Unit.DisplayValue y.Unit.DisplayValue = true
          ∨ x.Unit.DisplayValue = y.Unit.DisplayValue := by
        by_cases hh : strLt x.Unit.DisplayValue y.Unit.DisplayValue = true
        · exact Or.inl hh
        · exact Or.inr (strLt_connex (by simpa using hh) (by simpa using hs1))
      have hyz3 : strLt y.Unit.DisplayValue z.Unit.DisplayValue = true
          ∨ y.Unit.DisplayValue = z.Unit.DisplayValue := by
        by_cases hh : strLt y.Unit.DisplayValue z.Unit.DisplayValue = true
        · exact Or.inl hh
        · exact Or.inr (strLt_connex (by simpa using hh) (by simpa using hs2))
      rcases hxy2 with hxy2 | hxy2 <;> rcases hyz3 with hyz3 | hyz3
      · have := strLt_trans (strLt_trans hxy2 hyz3) hstr
        rw [strLt_irrefl] at this
        exact Bool.noConfusion this
      · rw [← hyz3] at hstr
        have := strLt_trans hxy2 hstr
        rw [strLt_irrefl] at this
        exact Bool.noConfusion this
      · rw [hxy2] at hstr
        have := strLt_trans hyz3 hstr
        rw [strLt_irrefl] at this
        exact Bool.noConfusion this
      · rw [hxy2, hyz3] at hstr
        rw [strLt_irrefl] at hstr
        exact Bool.noConfusion hstr

theorem orderedInsert_pairwise_local {α : Type} (r : α → α → Prop) [DecidableRel r]
    (P : α → Prop)
    (htot : ∀ x y, P x → P y → r x y ∨ r y x)
    (htr : ∀ x y z, P x → P y → P z → r x y → r y z → r x z) :
    ∀ (l : List α) (a : α), P a → (∀ x ∈ l, P x) → l.Pairwise r →
      (List.orderedInsert r a l).Pairwise r := by
  intro l
  induction l with
  | nil =>
    intro a _ _ _
    simp [List.orderedInsert]
  | cons b t ih =>
    intro a hPa hPl hpw
    rw [List.orderedInsert]
    have hPb : P b := hPl b (List.mem_cons_self b t)
    have hPt : ∀ x ∈ t, P x := fun x hx => hPl x (List.mem_cons_of_mem b hx)
    have hbt : ∀ x ∈ t, r b x := (List.pairwise_cons.mp hpw).1
    have hpwt : t.Pairwise r := (List.pairwise_cons.mp hpw).2
    by_cases hab : r a b
    · rw [if_pos hab]
      refine List.pairwise_cons.mpr ⟨?_, hpw⟩
      intro x hx
      rcases List.mem_cons.mp hx with hx | hx
      · exact hx ▸ hab
      · exact htr a b x hPa hPb (hPt x hx) hab (hbt x hx)
    · rw [if_neg hab]
      have hba : r b a := (htot a b hPa hPb).resolve_left hab
      refine List.pairwise_cons.mpr ⟨?_, ih a hPa hPt hpwt⟩
      intro x hx
      rcases (List.mem_orderedInsert r).mp hx with hx | hx
      · exact hx ▸ hba
      · exact hbt x hx

theorem insertionSort_pairwise_local {α : Type} (r : α → α → Prop) [DecidableRel r]
    (P : α → Prop)
    (htot : ∀ x y, P x → P y → r x y ∨ r y x)
    (htr : ∀ x y z, P x → P y → P z → r x y → r y z → r x z) :
    ∀ (l : List α), (∀ x ∈ l, P x) → (List.insertionSort r l).Pairwise r := by
  intro l
  induction l with
  | nil =>
    intro _
    simp
  | cons a t ih =>
    intro hPl
    rw [List.insertionSort]
    have hPa : P a := hPl a (List.mem_cons_self a t)
    have hPt : ∀ x ∈ t, P x := fun x hx => hPl x (List.mem_cons_of_mem a hx)
    have hPs : ∀ x ∈ List.insertionSort r t, P x :=
      fun x hx => hPt x ((List.perm_insertionSort r t).subset hx)
    exact orderedInsert_pairwise_local r P htot htr _ a hPa hPs (ih hPt)

theorem eq_of_perm_pairwise_local {α : Type} (r : α → α → Prop) :
    ∀ (l1 l2 : List α), l1.Perm l2 → l1.Pairwise r → l2.Pairwise r →
      (∀ x, x ∈ l1 → ∀ y, y ∈ l2 → x ≠ y → r x y → r y x → False) → l1 = l2 := by
  intro l1
  induction l1 with
  | nil =>
    intro l2 hp _ _ _
    exact (hp.symm.eq_nil).symm
  | cons a t ih =>
    intro l2 hp h1 h2 hanti
    cases l2 with
    | nil => exact absurd hp.eq_nil (by simp)
    | cons b u =>
      have hab : a = b := by
        by_contra hne
        have hamem : a ∈ b :: u := hp.mem_iff.mp (List.mem_cons_self a t)
        have hbmem : b ∈ a :: t := hp.mem_iff.mpr (List.mem_cons_self b u)
        have hau : a ∈ u := by
          rcases List.mem_cons.mp hamem with h | h
          · exact absurd h hne
          · exact h
        have hbt : b ∈ t := by
          rcases List.mem_cons.mp hbmem with h | h
          · exact absurd h.symm hne
          · exact h
        have rab : r a b := (List.pairwise_cons.mp h1).1 b hbt
        have rba : r b a := (List.pairwise_cons.mp h2).1 a hau
        exact hanti a (List.mem_cons_self a t) b (List.mem_cons_self b u) hne rab rba
      subst hab
      have hperm : t.Perm u := hp.cons_inv
      have ht : t = u := by
        apply ih u hperm (List.pairwise_cons.mp h1).2 (List.pairwise_cons.mp h2).2
        intro x hx y hy
        exact hanti x (List.mem_cons_of_mem a hx) y (List.mem_cons_of_mem a hy)
      rw [ht]

/-- Pairwise strict comparability under the canonical comparator: every
two distinct entries of the list compare strictly one way. -/
def StrictlyComparable (l : List UnitExponent) : Prop :=
  l.Pairwise (fun x y => cuLess x y = true ∨ cuLess y x = true)

theorem sort_pairwise_of_nz (cu : CompositeUnit)
    (hz : ∀ e ∈ cu.UnitsList, e.Exponent ≠ 0) :
    cu.sort.UnitsList.Pairwise (fun a b => cuLess b a = false) := by
  apply insertionSort_pairwise_local (fun a b => cuLess b a = false)
      (fun e => e.Exponent ≠ 0)
  · intro x y _ _
    exact cuCmp_total x y
  · intro x y z hx hy hz2 h1 h2
    exact cuCmp_trans hx hy hz2 h1 h2
  · exact hz

theorem render_perm_invariant (cu cu' : CompositeUnit)
    (hperm : cu.UnitsList.Perm cu'.UnitsList)
    (hz : ∀ e ∈ cu.UnitsList, e.Exponent ≠ 0)
    (hcomp : StrictlyComparable cu.UnitsList) :
    cu.render = cu'.render := by
  have hz' : ∀ e ∈ cu'.UnitsList, e.Exponent ≠ 0 :=
    fun e he => hz e (hperm.mem_iff.mpr he)
  have hs : cu.sort.UnitsList = cu'.sort.UnitsList := by
    apply eq_of_perm_pairwise_local (fun a b => cuLess b a = false)
    · exact (cuSort_perm cu).trans (hperm.trans (cuSort_perm cu').symm)
    · exact sort_pairwise_of_nz cu hz
    · exact sort_pairwise_of_nz cu' hz'
    · intro x hx y hy hne rxy ryx
      have hxm : x ∈ cu.UnitsList := (cuSort_perm cu).subset hx
      have hym : y ∈ cu.UnitsList :=
        hperm.mem_iff.mpr ((cuSort_perm cu').subset hy)
      have hcomp2 := (hcomp.forall (by intro a b h; exact h.symm)) hxm hym hne
      rcases hcomp2 with h | h
      · rw [h] at ryx
        exact Bool.noConfusion ryx
      · rw [h] at rxy
        exact Bool.noConfusion rxy
  unfold CompositeUnit.render
  rw [hs]
